import Mathlib

/- Shallow embedding of the ElectionGuard guardian-share and joint-key core:
   src/eg/src/guardian_share.rs and src/eg/src/joint_election_public_key.rs.
   Machine integers (BigUint) are modelled as Nat; byte strings as lists of
   naturals below 256; fallible operations return Except String.
   Support modules that are referenced by the sources but are not themselves
   under src/ (util::integer_util, util::bitwise, util::csprng, util::prime,
   the eg_h hash module and the guardian key module) are modelled from the
   specification where marked. -/

/-- Modelled from the spec: util::integer_util::to_be_bytes_left_pad, §4.1.
Big-endian encoding of a natural number, zero-padded on the left to exactly
len bytes; the low len bytes of the value are kept. -/
def to_be_bytes_left_pad (x : Nat) : Nat → List Nat
  | 0 => []
  | len + 1 => to_be_bytes_left_pad (x / 256) len ++ [x % 256]

/-- Big-endian byte-list decoding, as BigUint::from_bytes_be. -/
def from_bytes_be (bs : List Nat) : Nat :=
  bs.foldl (fun acc b => acc * 256 + b) 0

/-- Modelled from the spec: util::bitwise::xor, §4.4 step 7, the byte-wise xor
of two byte strings. -/
def xor_bytes (a b : List Nat) : List Nat :=
  List.zipWith (fun x y => x ^^^ y) a b

/-- FixedParameters of fixed_parameters.rs: the group description (p, q, g).
The invariants of §3 of the spec (p, q prime, g of order q) are stated as
hypotheses of the theorems, not baked into the type, matching the Rust struct
which holds plain big integers. -/
structure FixedParameters where
  p : Nat
  q : Nat
  g : Nat
deriving DecidableEq

/-- VaryingParameters: guardian count n and threshold k (date and info are
free text with no role in the core and are omitted). -/
structure VaryingParameters where
  n : Nat
  k : Nat
deriving DecidableEq

structure ElectionParameters where
  fixed_parameters : FixedParameters
  varying_parameters : VaryingParameters
deriving DecidableEq

/-- HValue: a 32-byte hash output, modelled as a list of naturals below 256. -/
abbrev HValue := List Nat

/-- GuardianIndex: the one-based index value in [1, n]. -/
abbrev GuardianIndex := Nat

/-- Modelled from the spec: guardian_secret_key.rs is not under src/.
Data model §3: index, ordered secret coefficients [a_0, …, a_{k−1}], and the
coefficient commitments [g^{a_0} mod p, …]. -/
structure GuardianSecretKey where
  i : GuardianIndex
  secret_coefficients : List Nat
  coefficient_commitments : List Nat
deriving DecidableEq

/-- Modelled from the spec: guardian_public_key.rs is not under src/.
Data model §3: index and coefficient commitments. -/
structure GuardianPublicKey where
  i : GuardianIndex
  coefficient_commitments : List Nat
deriving DecidableEq

/-- Modelled from the spec §4.3: secret_s() returns a_0.
Rust indexes coefficient 0 directly (a panic on an empty sequence); we use
the head with default 0. -/
def GuardianSecretKey.secret_s (sk : GuardianSecretKey) : Nat :=
  sk.secret_coefficients.headD 0

/-- Modelled from the spec §4.3: make_public_key() projects to the index and
the commitment sequence. -/
def GuardianSecretKey.make_public_key (sk : GuardianSecretKey) : GuardianPublicKey :=
  { i := sk.i, coefficient_commitments := sk.coefficient_commitments }

/-- public_key_k_i_0: commitments[0], the guardian public key K_{i,0}. -/
def GuardianPublicKey.public_key_k_i_0 (pk : GuardianPublicKey) : Nat :=
  pk.coefficient_commitments.headD 0

/-- Modelled from the spec §4.3: validate verifies i ∈ [1, n] and that every
commitment is a valid mod-p residue lying in the order-q subgroup. -/
def GuardianPublicKey.validate (pk : GuardianPublicKey) (ep : ElectionParameters) :
    Except String Unit :=
  if 1 ≤ pk.i ∧ pk.i ≤ ep.varying_parameters.n ∧
      ∀ c ∈ pk.coefficient_commitments,
        c < ep.fixed_parameters.p ∧ c ^ ep.fixed_parameters.q % ep.fixed_parameters.p = 1
  then Except.ok ()
  else Except.error "guardian public key is not valid"

/-- Modelled from the spec §4.1: the seeded CSPRNG. The generator state is the
stream of draws it will produce; next_biguint_lt pops the next draw reduced
into [0, q). -/
structure Csprng where
  stream : List Nat
deriving DecidableEq

def Csprng.next_biguint_lt (cs : Csprng) (q : Nat) : Nat × Csprng :=
  match cs.stream with
  | [] => (0, cs)
  | d :: rest => (d % q, ⟨rest⟩)

/-- GuardianEncryptedShare of guardian_share.rs: dealer and recipient indices,
ciphertext parts c0 (a group element), c1 (a 32-byte integer) and the MAC c2. -/
structure GuardianEncryptedShare where
  dealer : GuardianIndex
  recipient : GuardianIndex
  c0 : Nat
  c1 : Nat
  c2 : HValue
deriving DecidableEq

/-- The share encryption secret key of Equation (15), guardian_share.rs lines 43-59.
The keyed hash eg_h (HMAC-SHA-256, a module not under src/) is passed as the
parameter H, an arbitrary function from a key and a byte string to an HValue. -/
def GuardianEncryptedShare.secret_key (H : HValue → List Nat → HValue) (h_p : HValue)
    (i l : Nat) (capital_k_l alpha beta : Nat) : HValue :=
  H h_p ([0x11] ++ to_be_bytes_left_pad i 4 ++ to_be_bytes_left_pad l 4 ++
    to_be_bytes_left_pad capital_k_l 512 ++ to_be_bytes_left_pad alpha 512 ++
    to_be_bytes_left_pad beta 512)

/-- The bytes of the 14-byte label "share_enc_keys" of guardian_share.rs line 73. -/
def share_enc_keys_label : List Nat :=
  "share_enc_keys".toList.map Char.toNat

/-- The bytes of the 13-byte context prefix "share_encrypt" of guardian_share.rs line 75. -/
def share_encrypt_context : List Nat :=
  "share_encrypt".toList.map Char.toNat

/-- The MAC key (Equation 16) and the encryption key (Equation 17),
guardian_share.rs lines 71-100. -/
def GuardianEncryptedShare.mac_and_encryption_key (H : HValue → List Nat → HValue)
    (i l : Nat) (k_i_l : HValue) : HValue × HValue :=
  let context := share_encrypt_context ++ to_be_bytes_left_pad i 4 ++ to_be_bytes_left_pad l 4
  let k1 := H k_i_l ([0x01] ++ share_enc_keys_label ++ [0x00] ++ context ++ [0x02, 0x00])
  let k2 := H k_i_l ([0x02] ++ share_enc_keys_label ++ [0x00] ++ context ++ [0x02, 0x00])
  (k1, k2)

/-- The MAC of Equation (19), guardian_share.rs lines 107-111. -/
def GuardianEncryptedShare.share_mac (H : HValue → List Nat → HValue)
    (k0 : HValue) (c0 c1 : List Nat) : HValue :=
  H k0 (c0 ++ c1)

/-- Horner evaluation of the secret polynomial at x over Z_q, exactly the fold
inlined in GuardianEncryptedShare::new, guardian_share.rs lines 144-148. -/
def horner_eval (coeffs : List Nat) (x q : Nat) : Nat :=
  coeffs.reverse.foldl (fun p_l c => (p_l * x + c) % q) 0

/-- GuardianEncryptedShare::new, guardian_share.rs lines 120-161. Returns the
share together with the advanced CSPRNG state. -/
def GuardianEncryptedShare.new (H : HValue → List Nat → HValue) (csprng : Csprng)
    (election_parameters : ElectionParameters) (h_p : HValue)
    (dealer_private_key : GuardianSecretKey) (recipient_public_key : GuardianPublicKey) :
    GuardianEncryptedShare × Csprng :=
  let fp := election_parameters.fixed_parameters
  let i := dealer_private_key.i
  let l := recipient_public_key.i
  let capital_k := recipient_public_key.public_key_k_i_0
  let drawn := csprng.next_biguint_lt fp.q
  let xi := drawn.1
  let alpha := fp.g ^ xi % fp.p
  let beta := capital_k ^ xi % fp.p
  let k_i_l := secret_key H h_p i l capital_k alpha beta
  let ks := mac_and_encryption_key H i l k_i_l
  let p_l := horner_eval dealer_private_key.secret_coefficients l fp.q
  let c1 := xor_bytes (to_be_bytes_left_pad p_l 32) ks.2
  let c2 := share_mac H ks.1 (to_be_bytes_left_pad alpha 512) c1
  ({ dealer := i, recipient := l, c0 := alpha, c1 := from_bytes_be c1, c2 := c2 }, drawn.2)

/-- GuardianEncryptedShare::decrypt_and_validate, guardian_share.rs lines 170-211.
Rust reads the recipient key commitment [0] directly (a panic on an empty
sequence); we use the head with default 0. -/
def GuardianEncryptedShare.decrypt_and_validate (H : HValue → List Nat → HValue)
    (self : GuardianEncryptedShare) (election_parameters : ElectionParameters)
    (h_p : HValue) (dealer_public_key : GuardianPublicKey)
    (recipient_secret_key : GuardianSecretKey) : Except String Nat :=
  if self.dealer ≠ dealer_public_key.i then
    Except.error "The indices for the dealer must match."
  else if self.recipient ≠ recipient_secret_key.i then
    Except.error "The indices for the dealer must match."
  else
    let i := self.dealer
    let l := self.recipient
    let p := election_parameters.fixed_parameters.p
    let capital_k := recipient_secret_key.coefficient_commitments.headD 0
    let alpha := self.c0
    let beta := alpha ^ recipient_secret_key.secret_s % p
    let k_i_l := secret_key H h_p i l capital_k alpha beta
    let ks := mac_and_encryption_key H i l k_i_l
    let mac := share_mac H ks.1 (to_be_bytes_left_pad alpha 512) (to_be_bytes_left_pad self.c1 32)
    if mac ≠ self.c2 then Except.error "The MAC does not verify."
    else Except.ok (from_bytes_be (xor_bytes (to_be_bytes_left_pad self.c1 32) ks.2))

/-- GuardianSecretKeyShare of guardian_share.rs lines 216-223. -/
structure GuardianSecretKeyShare where
  i : GuardianIndex
  p_i : Nat
deriving DecidableEq

/-- The validation loop shared by GuardianSecretKeyShare::compute (guardian_share.rs
lines 246-248) and JointElectionPublicKey::compute (joint_election_public_key.rs
lines 96-98): validate every supplied guardian public key, propagating the
first error. -/
def validateAll (ep : ElectionParameters) : List GuardianPublicKey → Except String Unit
  | [] => Except.ok ()
  | pk :: rest =>
    match pk.validate ep with
    | Except.error e => Except.error e
    | Except.ok _ => validateAll ep rest

/-- The duplicate-detection loop over the seen array, shared by guardian_share.rs
lines 251-262 and joint_election_public_key.rs lines 101-112. Indices are the
one-based guardian indices; get_zero_based_usize is index − 1. Rust indexes the
seen vector (a panic when out of bounds, prevented by prior validation); we use
getD false, and List.set out of range is a no-op. -/
def seenLoop : List Nat → List Bool → Except String (List Bool)
  | [], seen => Except.ok seen
  | i :: rest, seen =>
    let seen_ix := i - 1
    if seen.getD seen_ix false then
      Except.error ("Guardian " ++ toString i ++
        " is represented more than once in the guardian public keys")
    else seenLoop rest (seen.set seen_ix true)

/-- The zero-based indices still unseen, guardian_share.rs lines 264-269 and
joint_election_public_key.rs lines 114-119. -/
def missing_guardian_ixs (seen : List Bool) : List Nat :=
  (seen.enum.filter (fun x => !x.2)).map (fun x => x.1)

/-- The coverage failure message of guardian_share.rs line 281 and
joint_election_public_key.rs line 133. Rust formats the *lazy* Map iterator
with the Debug formatter; Debug on std::iter::Map prints the inner iterator
and never consumes it, so the one-based strings built by the closure are never
produced. What is printed is Map's struct form around Enumerate (a derived
Debug showing iter and count: 0) around the slice iterator Iter([...]) holding
the zero-based missing indices. -/
def missingMessage (missing : List Nat) : String :=
  "Guardian(s) Map \x7b iter: Enumerate \x7b iter: Iter([" ++
    String.intercalate ", " (missing.map toString) ++
    "]), count: 0 \x7d \x7d are not represented in the guardian public keys"

/-- The decryption loop of GuardianSecretKeyShare::compute, guardian_share.rs
lines 285-295: for each (public key, share) pair run decrypt_and_validate; the
ensure! aborts the whole computation at the first failure, naming the dealer,
so the unwrap_or(0) fallback of line 294 only ever sees Ok values and no zero
is ever substituted. -/
def decryptAll (H : HValue → List Nat → HValue) (ep : ElectionParameters) (h_p : HValue)
    (recipient_secret_key : GuardianSecretKey) :
    List (GuardianPublicKey × GuardianEncryptedShare) → Except String (List Nat)
  | [] => Except.ok []
  | (pk, share) :: rest =>
    match share.decrypt_and_validate H ep h_p pk recipient_secret_key with
    | Except.error _ =>
      Except.error ("Could not decrypt and validate share from guardian " ++ toString pk.i)
    | Except.ok v =>
      match decryptAll H ep h_p recipient_secret_key rest with
      | Except.error e => Except.error e
      | Except.ok vs => Except.ok (v :: vs)

/-- GuardianSecretKeyShare::compute, guardian_share.rs lines 234-306. -/
def GuardianSecretKeyShare.compute (H : HValue → List Nat → HValue)
    (ep : ElectionParameters) (h_p : HValue)
    (guardian_public_keys : List GuardianPublicKey)
    (encrypted_shares : List GuardianEncryptedShare)
    (recipient_secret_key : GuardianSecretKey) : Except String GuardianSecretKeyShare :=
  match validateAll ep guardian_public_keys with
  | Except.error e => Except.error e
  | Except.ok _ =>
    match seenLoop (guardian_public_keys.map (fun pk => pk.i))
        (List.replicate ep.varying_parameters.n false) with
    | Except.error e => Except.error e
    | Except.ok seen =>
      if missing_guardian_ixs seen ≠ [] then
        Except.error (missingMessage (missing_guardian_ixs seen))
      else
        match decryptAll H ep h_p recipient_secret_key
            (guardian_public_keys.zip encrypted_shares) with
        | Except.error e => Except.error e
        | Except.ok shares =>
          Except.ok
            { i := recipient_secret_key.i
              p_i := shares.foldl (fun acc share => (acc + share) % ep.fixed_parameters.q) 0 }

/-- JointElectionPublicKey of joint_election_public_key.rs lines 20-26. -/
structure JointElectionPublicKey where
  joint_election_public_key : Nat
deriving DecidableEq

/-- Ciphertext of joint_election_public_key.rs lines 33-44. -/
structure Ciphertext where
  alpha : Nat
  beta : Nat
deriving DecidableEq

/-- Ciphertext::one, joint_election_public_key.rs lines 66-71. -/
def Ciphertext.one : Ciphertext :=
  { alpha := 1, beta := 1 }

/-- Ciphertext::scale, joint_election_public_key.rs lines 73-77. -/
def Ciphertext.scale (self : Ciphertext) (fixed_parameters : FixedParameters)
    (factor : Nat) : Ciphertext :=
  { alpha := self.alpha ^ factor % fixed_parameters.p
    beta := self.beta ^ factor % fixed_parameters.p }

/-- JointElectionPublicKey::compute, joint_election_public_key.rs lines 87-147. -/
def JointElectionPublicKey.compute (ep : ElectionParameters)
    (guardian_public_keys : List GuardianPublicKey) : Except String JointElectionPublicKey :=
  match validateAll ep guardian_public_keys with
  | Except.error e => Except.error e
  | Except.ok _ =>
    match seenLoop (guardian_public_keys.map (fun pk => pk.i))
        (List.replicate ep.varying_parameters.n false) with
    | Except.error e => Except.error e
    | Except.ok seen =>
      if missing_guardian_ixs seen ≠ [] then
        Except.error (missingMessage (missing_guardian_ixs seen))
      else
        Except.ok
          { joint_election_public_key :=
              guardian_public_keys.foldl
                (fun acc pk => acc * pk.public_key_k_i_0 % ep.fixed_parameters.p) 1 }

/-- JointElectionPublicKey::encrypt_with, joint_election_public_key.rs lines 149-163. -/
def JointElectionPublicKey.encrypt_with (self : JointElectionPublicKey)
    (fixed_parameters : FixedParameters) (nonce : Nat) (vote : Nat) : Ciphertext :=
  { alpha := fixed_parameters.g ^ nonce % fixed_parameters.p
    beta := self.joint_election_public_key ^ (nonce + vote) % fixed_parameters.p }

/-- The extended-Euclid while loop of the test mod_inverse, guardian_share.rs
lines 373-383: while r.1 is nonzero, with q = r.0 / r.1, swap-and-subtract both
the r and the t pair. BigInt division truncates toward zero; on every state
reachable from mod_inverse both components of r are nonnegative, where
truncated and Euclidean division agree, so Int division is used here. -/
def egcdLoop (r t : Int × Int) : (Int × Int) × (Int × Int) :=
  if _h : r.2 = 0 then (r, t)
  else
    egcdLoop (r.2, r.1 - r.1 / r.2 * r.2) (t.2, t.1 - r.1 / r.2 * t.2)
termination_by r.2.natAbs
decreasing_by
  have hmod : r.1 - r.1 / r.2 * r.2 = r.1 % r.2 := by
    rw [Int.emod_def]; ring
  rw [hmod]
  rcases (Ne.lt_or_lt _h) with hb | hb
  · have heq : r.1 % r.2 = r.1 % (-r.2) := (Int.emod_neg r.1 r.2).symm
    have h1 : 0 ≤ r.1 % (-r.2) := Int.emod_nonneg r.1 (by omega)
    have h2 : r.1 % (-r.2) < -r.2 := Int.emod_lt_of_pos r.1 (by omega)
    omega
  · have h1 : 0 ≤ r.1 % r.2 := Int.emod_nonneg r.1 _h
    have h2 : r.1 % r.2 < r.2 := Int.emod_lt_of_pos r.1 hb
    omega

/-- The test helper mod_inverse of guardian_share.rs lines 366-392: extended
Euclid on (m, a) starting from t = (0, 1); on gcd 1 return the Bezout
coefficient as a nonnegative residue (magnitude is natAbs). -/
def mod_inverse (a_u m_u : Nat) : Option Nat :=
  if m_u = 0 then none
  else
    let res := egcdLoop ((m_u : Int), (a_u : Int)) (0, 1)
    if res.1.1 = 1 then
      if res.2.1 < 0 then some (res.2.1 + (m_u : Int)).natAbs
      else some res.2.1.natAbs
    else none

/-- Modelled from the spec §4.1: util::prime subtract_group_elem, subtraction in
the scalar field Z_q of the two residues. -/
def subtract_group_elem (q a b : Nat) : Nat :=
  (a % q + (q - b % q)) % q

/-- The Lagrange coefficient b_i of the test lagrange_interpolation_at_zero,
guardian_share.rs lines 416-425: over the points l ≠ i, the product mod q of
l times the inverse of (l − i) in Z_q. A missing inverse is a Rust unwrap
panic, modelled as none. -/
def lagrangeCoefficient (xs : List Nat) (i : Nat) (q : Nat) : Option Nat :=
  ((xs.filter (fun l => l ≠ i)).mapM
      (fun l => (mod_inverse (subtract_group_elem q l i) q).map (fun w => l * w))).map
    (fun terms => terms.foldl (fun acc s => acc * s % q) 1)

/-- The test lagrange_interpolation_at_zero of guardian_share.rs lines 413-433. -/
def lagrange_interpolation_at_zero (xs ys : List Nat) (q : Nat) : Option Nat :=
  (xs.mapM (fun i => lagrangeCoefficient xs i q)).map
    (fun coeffs =>
      ((coeffs.zip ys).map (fun cy => cy.1 * cy.2 % q)).foldl
        (fun acc s => (acc + s) % q) 0)

/- Byte-encoding lemmas -/

theorem length_to_be_bytes_left_pad (x L : Nat) : (to_be_bytes_left_pad x L).length = L := by
  induction L generalizing x with
  | zero => rfl
  | succ n ih => simp [to_be_bytes_left_pad, ih]

theorem mem_to_be_bytes_left_pad_lt (x L : Nat) : ∀ b ∈ to_be_bytes_left_pad x L, b < 256 := by
  induction L generalizing x with
  | zero => simp [to_be_bytes_left_pad]
  | succ n ih =>
    simp only [to_be_bytes_left_pad, List.mem_append, List.mem_singleton]
    rintro b (hb | rfl)
    · exact ih _ b hb
    · exact Nat.mod_lt _ (by norm_num)

theorem from_bytes_be_append_singleton (l : List Nat) (b : Nat) :
    from_bytes_be (l ++ [b]) = from_bytes_be l * 256 + b := by
  simp [from_bytes_be, List.foldl_append]

theorem from_bytes_be_to_be_bytes_left_pad (x L : Nat) :
    from_bytes_be (to_be_bytes_left_pad x L) = x % 256 ^ L := by
  induction L generalizing x with
  | zero => simp [to_be_bytes_left_pad, from_bytes_be, Nat.mod_one]
  | succ n ih =>
    rw [to_be_bytes_left_pad, from_bytes_be_append_singleton, ih]
    rw [show (256 : Nat) ^ (n + 1) = 256 * 256 ^ n by ring, Nat.mod_mul]
    ring

theorem to_be_bytes_left_pad_from_bytes_be (bs : List Nat) (hlt : ∀ b ∈ bs, b < 256) :
    to_be_bytes_left_pad (from_bytes_be bs) bs.length = bs := by
  induction bs using List.reverseRecOn with
  | nil => rfl
  | append_singleton l b ih =>
    have hb : b < 256 := hlt b (by simp)
    have hl : ∀ y ∈ l, y < 256 := fun y hy => hlt y (by simp [hy])
    rw [from_bytes_be_append_singleton]
    have hlen : (l ++ [b]).length = l.length + 1 := by simp
    rw [hlen, to_be_bytes_left_pad]
    have hdiv : (from_bytes_be l * 256 + b) / 256 = from_bytes_be l := by
      rw [Nat.mul_comm (from_bytes_be l) 256, Nat.mul_add_div (by norm_num)]
      simp [Nat.div_eq_of_lt hb]
    have hmod : (from_bytes_be l * 256 + b) % 256 = b := by
      rw [Nat.mul_comm (from_bytes_be l) 256, Nat.mul_add_mod]
      exact Nat.mod_eq_of_lt hb
    rw [hdiv, hmod, ih hl]

/- Xor lemmas -/

theorem xor_bytes_length (a b : List Nat) : (xor_bytes a b).length = min a.length b.length := by
  simp [xor_bytes]

theorem xor_bytes_cancel (a b : List Nat) (h : a.length ≤ b.length) :
    xor_bytes (xor_bytes a b) b = a := by
  induction a generalizing b with
  | nil => simp [xor_bytes]
  | cons x xs ih =>
    cases b with
    | nil => simp at h
    | cons y ys =>
      simp only [xor_bytes, List.zipWith_cons_cons] at *
      rw [Nat.xor_cancel_right y x]
      simp only [List.length_cons, Nat.add_le_add_iff_right] at h
      rw [show List.zipWith (fun x y => x ^^^ y) (List.zipWith (fun x y => x ^^^ y) xs ys) ys
          = xs from ih ys h]

theorem mem_xor_bytes_lt (a b : List Nat) (ha : ∀ x ∈ a, x < 256) (hb : ∀ x ∈ b, x < 256) :
    ∀ x ∈ xor_bytes a b, x < 256 := by
  induction a generalizing b with
  | nil => simp [xor_bytes]
  | cons x xs ih =>
    cases b with
    | nil => simp [xor_bytes]
    | cons y ys =>
      simp only [xor_bytes, List.zipWith_cons_cons, List.mem_cons] at *
      rintro z (rfl | hz)
      · have h256 : (256 : Nat) = 2 ^ 8 := by norm_num
        rw [h256]
        exact Nat.xor_lt_two_pow (h256 ▸ ha x (Or.inl rfl)) (h256 ▸ hb y (Or.inl rfl))
      · exact ih ys (fun u hu => ha u (Or.inr hu)) (fun u hu => hb u (Or.inr hu)) z hz

/- Fold-mod lemmas -/

theorem foldl_add_mod (q : Nat) (l : List Nat) :
    ∀ a : Nat, l.foldl (fun acc s => (acc + s) % q) (a % q) = (a + l.sum) % q := by
  induction l with
  | nil => intro a; simp
  | cons s t ih =>
    intro a
    simp only [List.foldl_cons, List.sum_cons]
    rw [Nat.mod_add_mod, ih (a + s), Nat.add_assoc]

theorem foldl_mul_mod (p : Nat) (l : List Nat) :
    ∀ a : Nat, l.foldl (fun acc k => acc * k % p) (a % p) = a * l.prod % p := by
  induction l with
  | nil => intro a; simp
  | cons k t ih =>
    intro a
    simp only [List.foldl_cons, List.prod_cons]
    rw [Nat.mod_mul_mod, ih (a * k), Nat.mul_assoc]

theorem foldl_mul_mod_of_ne_nil (p : Nat) (l : List Nat) (hl : l ≠ []) (a : Nat) :
    l.foldl (fun acc k => acc * k % p) a = a * l.prod % p := by
  cases l with
  | nil => exact absurd rfl hl
  | cons k t =>
    simp only [List.foldl_cons, List.prod_cons]
    rw [foldl_mul_mod p t (a * k), Nat.mul_assoc]

theorem horner_eval_lt (coeffs : List Nat) (x q : Nat) (hq : 0 < q) :
    horner_eval coeffs x q < q := by
  unfold horner_eval
  generalize coeffs.reverse = l
  have main : ∀ (l : List Nat) (a : Nat), a < q →
      l.foldl (fun p_l c => (p_l * x + c) % q) a < q := by
    intro l
    induction l with
    | nil => intro a ha; exact ha
    | cons c t ih =>
      intro a ha
      simp only [List.foldl_cons]
      exact ih _ (Nat.mod_lt _ hq)
  exact main l 0 hq

/- The encrypt-then-decrypt roundtrip -/

theorem mac_and_encryption_key_snd_prop (H : HValue → List Nat → HValue)
    (hH : ∀ k d, (H k d).length = 32 ∧ ∀ b ∈ H k d, b < 256) (i l : Nat) (k : HValue) :
    (GuardianEncryptedShare.mac_and_encryption_key H i l k).2.length = 32 ∧
      ∀ b ∈ (GuardianEncryptedShare.mac_and_encryption_key H i l k).2, b < 256 := by
  unfold GuardianEncryptedShare.mac_and_encryption_key
  exact hH _ _

theorem new_dealer (H : HValue → List Nat → HValue) (cs : Csprng) (ep : ElectionParameters)
    (h_p : HValue) (sk_i : GuardianSecretKey) (pk_l : GuardianPublicKey) :
    (GuardianEncryptedShare.new H cs ep h_p sk_i pk_l).1.dealer = sk_i.i := rfl

theorem new_recipient (H : HValue → List Nat → HValue) (cs : Csprng) (ep : ElectionParameters)
    (h_p : HValue) (sk_i : GuardianSecretKey) (pk_l : GuardianPublicKey) :
    (GuardianEncryptedShare.new H cs ep h_p sk_i pk_l).1.recipient = pk_l.i := rfl

theorem new_c0 (H : HValue → List Nat → HValue) (cs : Csprng) (ep : ElectionParameters)
    (h_p : HValue) (sk_i : GuardianSecretKey) (pk_l : GuardianPublicKey) :
    (GuardianEncryptedShare.new H cs ep h_p sk_i pk_l).1.c0 =
      ep.fixed_parameters.g ^ (cs.next_biguint_lt ep.fixed_parameters.q).1 %
        ep.fixed_parameters.p := by
  simp only [GuardianEncryptedShare.new]

theorem new_c1 (H : HValue → List Nat → HValue) (cs : Csprng) (ep : ElectionParameters)
    (h_p : HValue) (sk_i : GuardianSecretKey) (pk_l : GuardianPublicKey) :
    (GuardianEncryptedShare.new H cs ep h_p sk_i pk_l).1.c1 =
      from_bytes_be (xor_bytes
        (to_be_bytes_left_pad
          (horner_eval sk_i.secret_coefficients pk_l.i ep.fixed_parameters.q) 32)
        (GuardianEncryptedShare.mac_and_encryption_key H sk_i.i pk_l.i
          (GuardianEncryptedShare.secret_key H h_p sk_i.i pk_l.i pk_l.public_key_k_i_0
            (ep.fixed_parameters.g ^ (cs.next_biguint_lt ep.fixed_parameters.q).1 %
              ep.fixed_parameters.p)
            (pk_l.public_key_k_i_0 ^ (cs.next_biguint_lt ep.fixed_parameters.q).1 %
              ep.fixed_parameters.p))).2) := by
  simp only [GuardianEncryptedShare.new]

theorem new_c2 (H : HValue → List Nat → HValue) (cs : Csprng) (ep : ElectionParameters)
    (h_p : HValue) (sk_i : GuardianSecretKey) (pk_l : GuardianPublicKey) :
    (GuardianEncryptedShare.new H cs ep h_p sk_i pk_l).1.c2 =
      GuardianEncryptedShare.share_mac H
        (GuardianEncryptedShare.mac_and_encryption_key H sk_i.i pk_l.i
          (GuardianEncryptedShare.secret_key H h_p sk_i.i pk_l.i pk_l.public_key_k_i_0
            (ep.fixed_parameters.g ^ (cs.next_biguint_lt ep.fixed_parameters.q).1 %
              ep.fixed_parameters.p)
            (pk_l.public_key_k_i_0 ^ (cs.next_biguint_lt ep.fixed_parameters.q).1 %
              ep.fixed_parameters.p))).1
        (to_be_bytes_left_pad
          (ep.fixed_parameters.g ^ (cs.next_biguint_lt ep.fixed_parameters.q).1 %
            ep.fixed_parameters.p) 512)
        (xor_bytes
          (to_be_bytes_left_pad
            (horner_eval sk_i.secret_coefficients pk_l.i ep.fixed_parameters.q) 32)
          (GuardianEncryptedShare.mac_and_encryption_key H sk_i.i pk_l.i
            (GuardianEncryptedShare.secret_key H h_p sk_i.i pk_l.i pk_l.public_key_k_i_0
              (ep.fixed_parameters.g ^ (cs.next_biguint_lt ep.fixed_parameters.q).1 %
                ep.fixed_parameters.p)
              (pk_l.public_key_k_i_0 ^ (cs.next_biguint_lt ep.fixed_parameters.q).1 %
                ep.fixed_parameters.p))).2) := by
  simp only [GuardianEncryptedShare.new]

/-- Controlled unfolding of decrypt_and_validate when both index checks pass. -/
theorem decrypt_and_validate_eq (H : HValue → List Nat → HValue)
    (self : GuardianEncryptedShare) (ep : ElectionParameters) (h_p : HValue)
    (pk : GuardianPublicKey) (sk : GuardianSecretKey)
    (h1 : self.dealer = pk.i) (h2 : self.recipient = sk.i) :
    self.decrypt_and_validate H ep h_p pk sk =
      (if GuardianEncryptedShare.share_mac H
          (GuardianEncryptedShare.mac_and_encryption_key H self.dealer self.recipient
            (GuardianEncryptedShare.secret_key H h_p self.dealer self.recipient
              (sk.coefficient_commitments.headD 0) self.c0
              (self.c0 ^ sk.secret_s % ep.fixed_parameters.p))).1
          (to_be_bytes_left_pad self.c0 512) (to_be_bytes_left_pad self.c1 32) ≠ self.c2
      then Except.error "The MAC does not verify."
      else Except.ok (from_bytes_be (xor_bytes (to_be_bytes_left_pad self.c1 32)
        (GuardianEncryptedShare.mac_and_encryption_key H self.dealer self.recipient
          (GuardianEncryptedShare.secret_key H h_p self.dealer self.recipient
            (sk.coefficient_commitments.headD 0) self.c0
            (self.c0 ^ sk.secret_s % ep.fixed_parameters.p))).2))) := by
  unfold GuardianEncryptedShare.decrypt_and_validate
  rw [if_neg (by simp [h1]), if_neg (by simp [h2])]

theorem make_public_key_i (sk : GuardianSecretKey) : (sk.make_public_key).i = sk.i := rfl

theorem make_public_key_k0 (sk : GuardianSecretKey) :
    (sk.make_public_key).public_key_k_i_0 = sk.coefficient_commitments.headD 0 := rfl

/-- Core correctness of the share-exchange protocol: decrypting a freshly built
share with matching keys recovers the dealer polynomial evaluated at the
recipient index. The hash H is arbitrary with 32-byte outputs; the recipient
key must be well-formed (its commitment 0 commits to its secret s via g^s mod p)
and q must fit the 32-byte share encoding. -/
theorem decrypt_new_roundtrip (H : HValue → List Nat → HValue)
    (hH : ∀ k d, (H k d).length = 32 ∧ ∀ b ∈ H k d, b < 256)
    (ep : ElectionParameters) (h_p : HValue) (cs : Csprng) (sk_i sk_l : GuardianSecretKey)
    (hq0 : 0 < ep.fixed_parameters.q) (hq32 : ep.fixed_parameters.q ≤ 256 ^ 32)
    (hwf : sk_l.coefficient_commitments.headD 0 =
      ep.fixed_parameters.g ^ sk_l.secret_s % ep.fixed_parameters.p) :
    (GuardianEncryptedShare.new H cs ep h_p sk_i sk_l.make_public_key).1.decrypt_and_validate
      H ep h_p sk_i.make_public_key sk_l =
      Except.ok (horner_eval sk_i.secret_coefficients sk_l.i ep.fixed_parameters.q) := by
  have hbeta :
      (ep.fixed_parameters.g ^ (cs.next_biguint_lt ep.fixed_parameters.q).1 %
          ep.fixed_parameters.p) ^ sk_l.secret_s % ep.fixed_parameters.p =
      sk_l.coefficient_commitments.headD 0 ^
          (cs.next_biguint_lt ep.fixed_parameters.q).1 % ep.fixed_parameters.p := by
    rw [hwf, ← Nat.pow_mod, ← Nat.pow_mod, ← Nat.pow_mul, ← Nat.pow_mul,
      Nat.mul_comm sk_l.secret_s]
  rw [decrypt_and_validate_eq H _ ep h_p _ _ (by rw [new_dealer, make_public_key_i])
    (by rw [new_recipient, make_public_key_i])]
  rw [new_dealer, new_recipient, new_c0, new_c1, new_c2]
  simp only [make_public_key_i, make_public_key_k0]
  rw [hbeta]
  set kil := GuardianEncryptedShare.secret_key H h_p sk_i.i sk_l.i
    (sk_l.coefficient_commitments.headD 0)
    (ep.fixed_parameters.g ^ (cs.next_biguint_lt ep.fixed_parameters.q).1 %
      ep.fixed_parameters.p)
    (sk_l.coefficient_commitments.headD 0 ^ (cs.next_biguint_lt ep.fixed_parameters.q).1 %
      ep.fixed_parameters.p) with hkil
  obtain ⟨hk2len, hk2mem⟩ := mac_and_encryption_key_snd_prop H hH sk_i.i sk_l.i kil
  set k2 := (GuardianEncryptedShare.mac_and_encryption_key H sk_i.i sk_l.i kil).2 with hk2
  set c1b := xor_bytes
    (to_be_bytes_left_pad
      (horner_eval sk_i.secret_coefficients sk_l.i ep.fixed_parameters.q) 32) k2 with hc1bdef
  have hc1blen : c1b.length = 32 := by
    rw [hc1bdef, xor_bytes_length, length_to_be_bytes_left_pad, hk2len]
    exact Nat.min_self 32
  have hc1bmem : ∀ b ∈ c1b, b < 256 := by
    rw [hc1bdef]
    exact mem_xor_bytes_lt _ _ (mem_to_be_bytes_left_pad_lt _ _) hk2mem
  have hroundtrip : to_be_bytes_left_pad (from_bytes_be c1b) 32 = c1b := by
    have h := to_be_bytes_left_pad_from_bytes_be c1b hc1bmem
    rwa [hc1blen] at h
  rw [hroundtrip]
  rw [if_neg (by simp)]
  rw [hc1bdef,
    xor_bytes_cancel _ _ (by rw [length_to_be_bytes_left_pad, hk2len]),
    from_bytes_be_to_be_bytes_left_pad,
    Nat.mod_eq_of_lt (lt_of_lt_of_le (horner_eval_lt _ _ _ hq0) hq32)]

/- Claim theorems: C1, C7, C8, C9, C10 -/

/-- C1: for every election parameters (with the data-model invariants that q is
positive and fits the 32-byte scalar encoding L_q = 32), parameter base hash,
dealer secret key SK_i and well-formed recipient secret key SK_l with public
keys derived by make_public_key, and every CSPRNG state, decrypt_and_validate
applied to the share produced by GuardianEncryptedShare::new succeeds and
returns exactly the Horner evaluation of SK_i's coefficient polynomial at
x = l reduced mod q. The keyed hash H is arbitrary with 32-byte outputs. -/
theorem c1_share_roundtrip (H : HValue → List Nat → HValue)
    (hH : ∀ k d, (H k d).length = 32 ∧ ∀ b ∈ H k d, b < 256)
    (ep : ElectionParameters) (h_p : HValue) (cs : Csprng) (sk_i sk_l : GuardianSecretKey)
    (hq0 : 0 < ep.fixed_parameters.q) (hq32 : ep.fixed_parameters.q ≤ 256 ^ 32)
    (hwf : sk_l.coefficient_commitments.headD 0 =
      ep.fixed_parameters.g ^ sk_l.secret_s % ep.fixed_parameters.p) :
    (GuardianEncryptedShare.new H cs ep h_p sk_i sk_l.make_public_key).1.decrypt_and_validate
      H ep h_p sk_i.make_public_key sk_l =
      Except.ok (horner_eval sk_i.secret_coefficients sk_l.i ep.fixed_parameters.q) :=
  decrypt_new_roundtrip H hH ep h_p cs sk_i sk_l hq0 hq32 hwf

theorem c1_share_roundtrip_witness :
    (GuardianEncryptedShare.new (fun _ _ => List.replicate 32 0) ⟨[5]⟩ ⟨⟨23, 11, 2⟩, ⟨2, 1⟩⟩
        (List.replicate 32 7) ⟨1, [3], [8]⟩
        (GuardianSecretKey.make_public_key ⟨2, [4], [16]⟩)).1.decrypt_and_validate
      (fun _ _ => List.replicate 32 0) ⟨⟨23, 11, 2⟩, ⟨2, 1⟩⟩ (List.replicate 32 7)
      (GuardianSecretKey.make_public_key ⟨1, [3], [8]⟩) ⟨2, [4], [16]⟩ =
      Except.ok (horner_eval [3] 2 11) :=
  c1_share_roundtrip (fun _ _ => List.replicate 32 0)
    (fun k d => ⟨by simp, by intro b hb; simp at hb; omega⟩)
    ⟨⟨23, 11, 2⟩, ⟨2, 1⟩⟩ (List.replicate 32 7) ⟨[5]⟩ ⟨1, [3], [8]⟩ ⟨2, [4], [16]⟩
    (by norm_num) (by norm_num) (by decide)

/-- C7: encrypt_with returns α = g^ξ mod p and β = K^(ξ+v) mod p; and whenever
p exceeds 1 (as any valid modulus does), encrypting v = 0 with nonce ξ = 0
under any K yields the ciphertext (1, 1). -/
theorem c7_encrypt_with (jpk : JointElectionPublicKey) (fp : FixedParameters)
    (nonce vote : Nat) :
    jpk.encrypt_with fp nonce vote =
      { alpha := fp.g ^ nonce % fp.p
        beta := jpk.joint_election_public_key ^ (nonce + vote) % fp.p } ∧
      (1 < fp.p → jpk.encrypt_with fp 0 0 = { alpha := 1, beta := 1 }) := by
  constructor
  · rfl
  · intro hp
    simp [JointElectionPublicKey.encrypt_with, Nat.mod_eq_of_lt hp]

theorem c7_encrypt_with_witness :
    JointElectionPublicKey.encrypt_with ⟨7⟩ ⟨23, 11, 2⟩ 0 0 = { alpha := 1, beta := 1 } :=
  (c7_encrypt_with ⟨7⟩ ⟨23, 11, 2⟩ 0 0).2 (by norm_num)

/-- C8 as stated is false: scale(c, 1) reduces the components mod p, so a
ciphertext holding an unreduced component is not returned unchanged. At
p = 5 and c = (5, 0), scale(c, 1) = (0, 0) ≠ c. -/
theorem c8_scale_counterexample :
    ¬ (Ciphertext.scale { alpha := 5, beta := 0 } ⟨5, 2, 3⟩ 1 =
      { alpha := 5, beta := 0 }) := by
  decide

/-- C8 amended: for every ciphertext whose components are reduced mod p,
scale(c, 1) = c; and whenever p exceeds 1, scale(one, f) = one for every f. -/
theorem c8_scale_amended (fp : FixedParameters) (c : Ciphertext) (f : Nat) :
    (c.alpha < fp.p → c.beta < fp.p → c.scale fp 1 = c) ∧
      (1 < fp.p → Ciphertext.one.scale fp f = Ciphertext.one) := by
  constructor
  · intro ha hb
    cases c with
    | mk a b =>
      simp only [Ciphertext.scale, pow_one]
      simp_all [Nat.mod_eq_of_lt]
  · intro hp
    simp [Ciphertext.scale, Ciphertext.one, Nat.mod_eq_of_lt hp]

theorem c8_scale_amended_witness :
    Ciphertext.scale { alpha := 5, beta := 7 } ⟨23, 11, 2⟩ 1 = { alpha := 5, beta := 7 } ∧
      Ciphertext.scale Ciphertext.one ⟨23, 11, 2⟩ 9 = Ciphertext.one :=
  ⟨(c8_scale_amended ⟨23, 11, 2⟩ { alpha := 5, beta := 7 } 9).1 (by norm_num) (by norm_num),
    (c8_scale_amended ⟨23, 11, 2⟩ { alpha := 5, beta := 7 } 9).2 (by norm_num)⟩

theorem share_enc_keys_label_eq :
    share_enc_keys_label = [115, 104, 97, 114, 101, 95, 101, 110, 99, 95, 107, 101, 121, 115] := by
  decide

theorem share_encrypt_context_eq :
    share_encrypt_context = [115, 104, 97, 114, 101, 95, 101, 110, 99, 114, 121, 112, 116] := by
  decide

theorem to_be_bytes_left_pad_four (i : Nat) :
    to_be_bytes_left_pad i 4 =
      [i / 16777216 % 256, i / 65536 % 256, i / 256 % 256, i % 256] := by
  simp [to_be_bytes_left_pad, Nat.div_div_eq_div_mul]

/-- C9: the MAC key is H(k, 0x01 ‖ "share_enc_keys" ‖ 0x00 ‖ "share_encrypt" ‖
be(i,4) ‖ be(l,4) ‖ 0x02 0x00) and the encryption key is the same with leading
byte 0x02; the two labels are 14 and 13 bytes long. The byte strings on the
right are spelled out literally (ASCII codes and big-endian u32 digits). -/
theorem c9_kdf_byte_strings (H : HValue → List Nat → HValue) (i l : Nat) (k : HValue) :
    (GuardianEncryptedShare.mac_and_encryption_key H i l k).1 =
      H k ([0x01] ++ [115, 104, 97, 114, 101, 95, 101, 110, 99, 95, 107, 101, 121, 115] ++
        [0x00] ++ ([115, 104, 97, 114, 101, 95, 101, 110, 99, 114, 121, 112, 116] ++
          [i / 16777216 % 256, i / 65536 % 256, i / 256 % 256, i % 256] ++
          [l / 16777216 % 256, l / 65536 % 256, l / 256 % 256, l % 256]) ++ [0x02, 0x00]) ∧
    (GuardianEncryptedShare.mac_and_encryption_key H i l k).2 =
      H k ([0x02] ++ [115, 104, 97, 114, 101, 95, 101, 110, 99, 95, 107, 101, 121, 115] ++
        [0x00] ++ ([115, 104, 97, 114, 101, 95, 101, 110, 99, 114, 121, 112, 116] ++
          [i / 16777216 % 256, i / 65536 % 256, i / 256 % 256, i % 256] ++
          [l / 16777216 % 256, l / 65536 % 256, l / 256 % 256, l % 256]) ++ [0x02, 0x00]) ∧
    share_enc_keys_label.length = 14 ∧ share_encrypt_context.length = 13 := by
  refine ⟨?_, ?_, by decide, by decide⟩ <;>
    simp [GuardianEncryptedShare.mac_and_encryption_key, share_enc_keys_label_eq,
      share_encrypt_context_eq, to_be_bytes_left_pad_four]

/-- C10: decrypt_and_validate never reads the dealer public key's coefficient
commitments; for any two dealer public keys whose index equals the share's
dealer field the result is identical. -/
theorem c10_dealer_commitments_unused (H : HValue → List Nat → HValue)
    (share : GuardianEncryptedShare) (ep : ElectionParameters) (h_p : HValue)
    (pk₁ pk₂ : GuardianPublicKey) (rsk : GuardianSecretKey)
    (h1 : pk₁.i = share.dealer) (h2 : pk₂.i = share.dealer) :
    share.decrypt_and_validate H ep h_p pk₁ rsk =
      share.decrypt_and_validate H ep h_p pk₂ rsk := by
  unfold GuardianEncryptedShare.decrypt_and_validate
  rw [h1, h2]

theorem c10_dealer_commitments_unused_witness :
    GuardianEncryptedShare.decrypt_and_validate (fun _ _ => List.replicate 32 0)
      ⟨1, 2, 5, 7, List.replicate 32 0⟩ ⟨⟨23, 11, 2⟩, ⟨2, 1⟩⟩ (List.replicate 32 7)
      ⟨1, [2]⟩ ⟨2, [4], [16]⟩ =
    GuardianEncryptedShare.decrypt_and_validate (fun _ _ => List.replicate 32 0)
      ⟨1, 2, 5, 7, List.replicate 32 0⟩ ⟨⟨23, 11, 2⟩, ⟨2, 1⟩⟩ (List.replicate 32 7)
      ⟨1, [9, 9]⟩ ⟨2, [4], [16]⟩ :=
  c10_dealer_commitments_unused (fun _ _ => List.replicate 32 0)
    ⟨1, 2, 5, 7, List.replicate 32 0⟩ ⟨⟨23, 11, 2⟩, ⟨2, 1⟩⟩ (List.replicate 32 7)
    ⟨1, [2]⟩ ⟨1, [9, 9]⟩ ⟨2, [4], [16]⟩ rfl rfl

/- Inversion of GuardianSecretKeyShare::compute and the decryption loop -/

theorem decryptAll_append_error (H : HValue → List Nat → HValue) (ep : ElectionParameters)
    (h_p : HValue) (rsk : GuardianSecretKey)
    (pre : List (GuardianPublicKey × GuardianEncryptedShare))
    (pk : GuardianPublicKey) (sh : GuardianEncryptedShare)
    (post : List (GuardianPublicKey × GuardianEncryptedShare)) (e : String)
    (hpre : ∀ pr ∈ pre, ∃ v, (pr.2).decrypt_and_validate H ep h_p pr.1 rsk = Except.ok v)
    (hfail : sh.decrypt_and_validate H ep h_p pk rsk = Except.error e) :
    decryptAll H ep h_p rsk (pre ++ (pk, sh) :: post) =
      Except.error ("Could not decrypt and validate share from guardian " ++ toString pk.i) := by
  induction pre with
  | nil =>
    simp only [List.nil_append, decryptAll, hfail]
  | cons hd tl ih =>
    obtain ⟨v, hv⟩ := hpre hd (by simp)
    cases hd with
    | mk hpk hsh =>
      simp only [List.cons_append, decryptAll, hv]
      simp only [List.append_eq]
      rw [ih (fun pr hpr => hpre pr (by simp [hpr]))]

/-- C4: once validation and coverage have passed, a failure of any single
decrypt_and_validate call inside GuardianSecretKeyShare::compute (the first
failing pair, all earlier pairs decrypting fine) makes the whole compute
return an error naming the offending dealer's index; no share is returned and
no zero is substituted. -/
theorem c4_decrypt_failure_aborts (H : HValue → List Nat → HValue)
    (ep : ElectionParameters) (h_p : HValue) (pks : List GuardianPublicKey)
    (shares : List GuardianEncryptedShare) (rsk : GuardianSecretKey) (s : List Bool)
    (pre : List (GuardianPublicKey × GuardianEncryptedShare))
    (pk : GuardianPublicKey) (sh : GuardianEncryptedShare)
    (post : List (GuardianPublicKey × GuardianEncryptedShare)) (e : String)
    (hva : validateAll ep pks = Except.ok ())
    (hsl : seenLoop (pks.map (fun pk => pk.i))
      (List.replicate ep.varying_parameters.n false) = Except.ok s)
    (hmiss : missing_guardian_ixs s = [])
    (hzip : pks.zip shares = pre ++ (pk, sh) :: post)
    (hpre : ∀ pr ∈ pre, ∃ v, (pr.2).decrypt_and_validate H ep h_p pr.1 rsk = Except.ok v)
    (hfail : sh.decrypt_and_validate H ep h_p pk rsk = Except.error e) :
    GuardianSecretKeyShare.compute H ep h_p pks shares rsk =
      Except.error ("Could not decrypt and validate share from guardian " ++ toString pk.i) := by
  unfold GuardianSecretKeyShare.compute
  rw [hva, hsl]
  simp only [hmiss, ne_eq, not_true_eq_false, if_false]
  rw [hzip, decryptAll_append_error H ep h_p rsk pre pk sh post e hpre hfail]

/-- C3: whenever GuardianSecretKeyShare::compute succeeds, the returned share
carries the recipient's index and the sum of all decrypted share values mod q. -/
theorem c3_compute_success (H : HValue → List Nat → HValue) (ep : ElectionParameters)
    (h_p : HValue) (pks : List GuardianPublicKey) (shares : List GuardianEncryptedShare)
    (rsk : GuardianSecretKey) (out : GuardianSecretKeyShare)
    (h : GuardianSecretKeyShare.compute H ep h_p pks shares rsk = Except.ok out) :
    out.i = rsk.i ∧
      ∃ vs, decryptAll H ep h_p rsk (pks.zip shares) = Except.ok vs ∧
        out.p_i = vs.sum % ep.fixed_parameters.q := by
  unfold GuardianSecretKeyShare.compute at h
  split at h
  · exact absurd h (by simp)
  · split at h
    · exact absurd h (by simp)
    · split at h
      · exact absurd h (by simp)
      · split at h
        · exact absurd h (by simp)
        · rename_i vs hda
          simp only [Except.ok.injEq] at h
          subst h
          refine ⟨rfl, vs, hda, ?_⟩
          show vs.foldl (fun acc share => (acc + share) % ep.fixed_parameters.q) 0 = _
          rw [show (0 : Nat) = 0 % ep.fixed_parameters.q from (Nat.zero_mod _).symm,
            foldl_add_mod]
          simp

set_option maxRecDepth 8000 in
theorem c3_compute_success_witness :
    (⟨1, 3⟩ : GuardianSecretKeyShare).i = (⟨1, [3], [8]⟩ : GuardianSecretKey).i ∧
      ∃ vs, decryptAll (fun _ _ => List.replicate 32 0) ⟨⟨23, 11, 2⟩, ⟨1, 1⟩⟩
          (List.replicate 32 7) ⟨1, [3], [8]⟩
          ([GuardianSecretKey.make_public_key ⟨1, [3], [8]⟩].zip
            [(GuardianEncryptedShare.new (fun _ _ => List.replicate 32 0) ⟨[5]⟩
              ⟨⟨23, 11, 2⟩, ⟨1, 1⟩⟩ (List.replicate 32 7) ⟨1, [3], [8]⟩
              (GuardianSecretKey.make_public_key ⟨1, [3], [8]⟩)).1]) = Except.ok vs ∧
        (⟨1, 3⟩ : GuardianSecretKeyShare).p_i = vs.sum % 11 :=
  c3_compute_success (fun _ _ => List.replicate 32 0) ⟨⟨23, 11, 2⟩, ⟨1, 1⟩⟩
    (List.replicate 32 7) [GuardianSecretKey.make_public_key ⟨1, [3], [8]⟩]
    [(GuardianEncryptedShare.new (fun _ _ => List.replicate 32 0) ⟨[5]⟩
      ⟨⟨23, 11, 2⟩, ⟨1, 1⟩⟩ (List.replicate 32 7) ⟨1, [3], [8]⟩
      (GuardianSecretKey.make_public_key ⟨1, [3], [8]⟩)).1]
    ⟨1, [3], [8]⟩ ⟨1, 3⟩ rfl

set_option maxRecDepth 8000 in
theorem c4_decrypt_failure_aborts_witness :
    GuardianSecretKeyShare.compute (fun _ _ => List.replicate 32 0) ⟨⟨23, 11, 2⟩, ⟨1, 1⟩⟩
      (List.replicate 32 7) [⟨1, [8]⟩] [⟨1, 1, 9, 0, List.replicate 32 1⟩] ⟨1, [3], [8]⟩ =
      Except.error ("Could not decrypt and validate share from guardian " ++ toString (1 : Nat)) :=
  c4_decrypt_failure_aborts (fun _ _ => List.replicate 32 0) ⟨⟨23, 11, 2⟩, ⟨1, 1⟩⟩
    (List.replicate 32 7) [⟨1, [8]⟩] [⟨1, 1, 9, 0, List.replicate 32 1⟩] ⟨1, [3], [8]⟩
    [true] [] ⟨1, [8]⟩ ⟨1, 1, 9, 0, List.replicate 32 1⟩ [] "The MAC does not verify."
    rfl rfl rfl rfl (by simp) rfl

/- The coverage check: C5 and C6 -/

/-- C5: the code-level coverage failure. Omitting guardian 3 with n = 5 makes
JointElectionPublicKey::compute fail, but the error text is the Debug
rendering of the never-consumed lazy Map iterator: it shows the zero-based
missing index 2 inside Iter([...]) and the digit 3 appears nowhere in the
message, contradicting the claim that the error names index 3 (which is what
the unconsumed closure would have produced). -/
theorem c5_coverage_missing_message :
    JointElectionPublicKey.compute ⟨⟨23, 11, 2⟩, ⟨5, 3⟩⟩
        [⟨1, [2]⟩, ⟨2, [2]⟩, ⟨4, [2]⟩, ⟨5, [2]⟩] =
      Except.error "Guardian(s) Map \x7b iter: Enumerate \x7b iter: Iter([2]), count: 0 \x7d \x7d are not represented in the guardian public keys" ∧
      ('3' ∉ "Guardian(s) Map \x7b iter: Enumerate \x7b iter: Iter([2]), count: 0 \x7d \x7d are not represented in the guardian public keys".toList) ∧
      ('2' ∈ "Guardian(s) Map \x7b iter: Enumerate \x7b iter: Iter([2]), count: 0 \x7d \x7d are not represented in the guardian public keys".toList) := by
  refine ⟨rfl, by decide, by decide⟩

theorem getD_set_true_eq (s : List Bool) (a b : Nat) :
    (s.set a true).getD b false = if a = b ∧ a < s.length then true else s.getD b false := by
  induction s generalizing a b with
  | nil => simp
  | cons x xs ih =>
    cases a with
    | zero =>
      cases b with
      | zero => simp
      | succ b' => simp
    | succ a' =>
      cases b with
      | zero => simp
      | succ b' =>
        simp only [List.set_cons_succ, List.getD_cons_succ, ih, List.length_cons]
        split_ifs with h1 h2 h2 <;> first | rfl | omega

theorem seenLoop_length (zs : List Nat) :
    ∀ seen s, seenLoop zs seen = Except.ok s → s.length = seen.length := by
  induction zs with
  | nil =>
    intro seen s h
    simp only [seenLoop, Except.ok.injEq] at h
    subst h; rfl
  | cons i rest ih =>
    intro seen s h
    simp only [seenLoop] at h
    split at h
    · exact absurd h (by simp)
    · have := ih (seen.set (i - 1) true) s h
      simpa using this

theorem seenLoop_ok_iff (zs : List Nat) :
    ∀ (seen : List Bool), (∀ i ∈ zs, i - 1 < seen.length) →
      ((∃ s, seenLoop zs seen = Except.ok s) ↔
        ((zs.map (fun i => i - 1)).Nodup ∧ ∀ i ∈ zs, seen.getD (i - 1) false = false)) := by
  induction zs with
  | nil =>
    intro seen _
    simp [seenLoop]
  | cons i rest ih =>
    intro seen hb
    simp only [seenLoop]
    by_cases hseen : seen.getD (i - 1) false
    · rw [if_pos hseen]
      constructor
      · rintro ⟨s, hs⟩; exact absurd hs (by simp)
      · rintro ⟨-, hall⟩
        have := hall i (by simp)
        rw [this] at hseen
        exact absurd hseen (by simp)
    · rw [if_neg hseen]
      have hb' : ∀ j ∈ rest, j - 1 < (seen.set (i - 1) true).length := by
        intro j hj
        simpa using hb j (by simp [hj])
      rw [ih (seen.set (i - 1) true) hb']
      simp only [List.map_cons, List.nodup_cons, List.mem_cons]
      constructor
      · rintro ⟨hnd, hall⟩
        have hi1 : i - 1 ∉ rest.map (fun j => j - 1) := by
          intro hmem
          obtain ⟨j, hj, hji⟩ := List.mem_map.mp hmem
          have := hall j hj
          rw [getD_set_true_eq] at this
          rw [if_pos ⟨hji.symm, hb i (by simp)⟩] at this
          exact absurd this (by simp)
        refine ⟨⟨hi1, hnd⟩, ?_⟩
        intro j hj
        rcases hj with rfl | hj
        · simpa using hseen
        · have := hall j hj
          rw [getD_set_true_eq] at this
          rcases Decidable.em (i - 1 = j - 1 ∧ i - 1 < seen.length) with hc | hc
          · rw [if_pos hc] at this
            exact absurd this (by simp)
          · rwa [if_neg hc] at this
      · rintro ⟨⟨hi1, hnd⟩, hall⟩
        refine ⟨hnd, ?_⟩
        intro j hj
        rw [getD_set_true_eq]
        split_ifs with hc
        · exact absurd (List.mem_map.mpr ⟨j, hj, hc.1.symm⟩) hi1
        · exact hall j (Or.inr hj)

theorem seenLoop_ok_getD (zs : List Nat) :
    ∀ seen s, (∀ i ∈ zs, i - 1 < seen.length) → seenLoop zs seen = Except.ok s → ∀ m,
      (s.getD m false = true ↔ seen.getD m false = true ∨ ∃ i ∈ zs, i - 1 = m) := by
  induction zs with
  | nil =>
    intro seen s _ h m
    simp only [seenLoop, Except.ok.injEq] at h
    subst h
    simp
  | cons i rest ih =>
    intro seen s hb h m
    simp only [seenLoop] at h
    split at h
    · exact absurd h (by simp)
    · have hb' : ∀ j ∈ rest, j - 1 < (seen.set (i - 1) true).length := by
        intro j hj
        simpa using hb j (by simp [hj])
      rw [ih (seen.set (i - 1) true) s hb' h m]
      rw [getD_set_true_eq]
      constructor
      · rintro (hc | hrest)
        · split_ifs at hc with hcc
          · exact Or.inr ⟨i, by simp, hcc.1⟩
          · exact Or.inl hc
        · obtain ⟨j, hj, hjm⟩ := hrest
          exact Or.inr ⟨j, by simp [hj], hjm⟩
      · rintro (hc | ⟨j, hj, hjm⟩)
        · left
          split_ifs with hcc
          · rfl
          · exact hc
        · rcases List.mem_cons.mp hj with rfl | hj
          · left
            rw [if_pos ⟨hjm, hjm ▸ hb j (by simp)⟩]
          · exact Or.inr ⟨j, hj, hjm⟩

theorem missing_guardian_ixs_eq_nil_iff (s : List Bool) :
    missing_guardian_ixs s = [] ↔ ∀ b ∈ s, b = true := by
  unfold missing_guardian_ixs
  rw [List.map_eq_nil_iff, List.filter_eq_nil_iff]
  constructor
  · intro h b hb
    have : b ∈ s.enum.map Prod.snd := by
      rw [List.enum_map_snd]; exact hb
    obtain ⟨x, hx, hxb⟩ := List.mem_map.mp this
    have := h x hx
    simp only [Bool.not_eq_true'] at this
    rw [← hxb]
    simpa using this
  · intro h x hx
    have : x.2 ∈ s.enum.map Prod.snd := List.mem_map.mpr ⟨x, hx, rfl⟩
    rw [List.enum_map_snd] at this
    simp [h x.2 this]

theorem getD_replicate_false (n m : Nat) : (List.replicate n false).getD m false = false := by
  induction n generalizing m with
  | zero => simp
  | succ k ih =>
    cases m with
    | zero => simp
    | succ m' =>
      simp only [List.replicate_succ, List.getD_cons_succ]
      exact ih m'

theorem all_true_iff_getD (s : List Bool) :
    (∀ b ∈ s, b = true) ↔ ∀ m < s.length, s.getD m false = true := by
  induction s with
  | nil => simp
  | cons x xs ih =>
    constructor
    · intro h m hm
      cases m with
      | zero => simpa using h x (by simp)
      | succ m' =>
        simp only [List.getD_cons_succ]
        exact (ih.mp (fun b hb => h b (by simp [hb]))) m' (by simpa using hm)
    · intro h b hb
      rcases List.mem_cons.mp hb with rfl | hb'
      · simpa using h 0 (by simp)
      · exact ih.mpr (fun m hm => by simpa using h (m + 1) (by simpa using hm)) b hb'

/-- Joint characterization of the coverage check (duplicate loop plus missing
set) against membership of all one-based indices. -/
theorem coverage_ok_iff (n : Nat) (zs : List Nat) (hb : ∀ i ∈ zs, 1 ≤ i ∧ i ≤ n) :
    (∃ s, seenLoop zs (List.replicate n false) = Except.ok s ∧
        missing_guardian_ixs s = []) ↔
      ((zs.map (fun i => i - 1)).Nodup ∧ ∀ m < n, m + 1 ∈ zs) := by
  have hb' : ∀ i ∈ zs, i - 1 < (List.replicate n false).length := by
    intro i hi
    have := hb i hi
    simp only [List.length_replicate]
    omega
  constructor
  · rintro ⟨s, hok, hmiss⟩
    have hnd := ((seenLoop_ok_iff zs (List.replicate n false) hb').mp ⟨s, hok⟩).1
    refine ⟨hnd, ?_⟩
    intro m hm
    have hslen : s.length = n := by
      simpa using seenLoop_length zs (List.replicate n false) s hok
    have hgetD : s.getD m false = true := by
      have hall := (missing_guardian_ixs_eq_nil_iff s).mp hmiss
      exact (all_true_iff_getD s).mp hall m (by omega)
    have := (seenLoop_ok_getD zs (List.replicate n false) s hb' hok m).mp hgetD
    rcases this with hc | ⟨i, hi, him⟩
    · rw [getD_replicate_false] at hc
      exact absurd hc (by simp)
    · have := hb i hi
      have : i = m + 1 := by omega
      exact this ▸ hi
  · rintro ⟨hnd, hcov⟩
    obtain ⟨s, hok⟩ := (seenLoop_ok_iff zs (List.replicate n false) hb').mpr
      ⟨hnd, fun i _ => getD_replicate_false n (i - 1)⟩
    refine ⟨s, hok, ?_⟩
    rw [missing_guardian_ixs_eq_nil_iff, all_true_iff_getD]
    intro m hm
    have hslen : s.length = n := by
      simpa using seenLoop_length zs (List.replicate n false) s hok
    rw [seenLoop_ok_getD zs (List.replicate n false) s hb' hok m]
    refine Or.inr ⟨m + 1, hcov m (by omega), by omega⟩

theorem foldl_mul_mod_map (p : Nat) (f : GuardianPublicKey → Nat)
    (l : List GuardianPublicKey) :
    ∀ a : Nat, l.foldl (fun acc pk => acc * f pk % p) (a % p) = a * (l.map f).prod % p := by
  induction l with
  | nil => intro a; simp
  | cons k t ih =>
    intro a
    simp only [List.foldl_cons, List.map_cons, List.prod_cons]
    rw [Nat.mod_mul_mod, ih (a * f k), Nat.mul_assoc]

theorem foldl_mul_mod_map_of_ne_nil (p : Nat) (f : GuardianPublicKey → Nat)
    (l : List GuardianPublicKey) (hl : l ≠ []) (a : Nat) :
    l.foldl (fun acc pk => acc * f pk % p) a = a * (l.map f).prod % p := by
  cases l with
  | nil => exact absurd rfl hl
  | cons k t =>
    simp only [List.foldl_cons, List.map_cons, List.prod_cons]
    rw [foldl_mul_mod_map p f t (a * f k), Nat.mul_assoc]

theorem validateAll_ok_iff (ep : ElectionParameters) (pks : List GuardianPublicKey) :
    validateAll ep pks = Except.ok () ↔ ∀ pk ∈ pks, pk.validate ep = Except.ok () := by
  induction pks with
  | nil => simp [validateAll]
  | cons pk rest ih =>
    simp only [validateAll]
    cases h : pk.validate ep with
    | error e =>
      constructor
      · intro habs; exact absurd habs (by simp)
      · intro hall
        have := hall pk (by simp)
        rw [h] at this
        exact absurd this (by simp)
    | ok u =>
      cases u
      rw [ih]
      constructor
      · intro hall pk' hpk'
        rcases List.mem_cons.mp hpk' with rfl | hpk'
        · exact h
        · exact hall pk' hpk'
      · intro hall pk' hpk'
        exact hall pk' (by simp [hpk'])

theorem validate_ok_bounds (pk : GuardianPublicKey) (ep : ElectionParameters)
    (h : pk.validate ep = Except.ok ()) :
    1 ≤ pk.i ∧ pk.i ≤ ep.varying_parameters.n := by
  unfold GuardianPublicKey.validate at h
  split at h
  · rename_i hc
    exact ⟨hc.1, hc.2.1⟩
  · exact absurd h (by simp)

/-- C6: JointElectionPublicKey::compute is invariant under permutation of the
guardian public keys, and the joint key it returns is the product of the
K_{j,0} values reduced mod p. -/
theorem c6_compute_permutation_invariant (ep : ElectionParameters)
    (pks pks' : List GuardianPublicKey) (J : JointElectionPublicKey)
    (hn : 1 ≤ ep.varying_parameters.n)
    (h : JointElectionPublicKey.compute ep pks = Except.ok J)
    (hperm : pks.Perm pks') :
    JointElectionPublicKey.compute ep pks' = Except.ok J ∧
      J.joint_election_public_key =
        (pks.map GuardianPublicKey.public_key_k_i_0).prod % ep.fixed_parameters.p := by
  unfold JointElectionPublicKey.compute at h
  cases hva : validateAll ep pks with
  | error e => rw [hva] at h; exact absurd h (by simp)
  | ok u =>
    cases u
    rw [hva] at h
    cases hsl : seenLoop (pks.map (fun pk => pk.i))
        (List.replicate ep.varying_parameters.n false) with
    | error e => rw [hsl] at h; simp at h
    | ok s =>
      rw [hsl] at h
      simp only [ne_eq, ite_not] at h
      by_cases hmiss : missing_guardian_ixs s = []
      · rw [if_pos hmiss] at h
        simp only [Except.ok.injEq] at h
        -- bounds on the indices from validation
        have hval := (validateAll_ok_iff ep pks).mp hva
        have hb : ∀ i ∈ pks.map (fun pk => pk.i), 1 ≤ i ∧ i ≤ ep.varying_parameters.n := by
          intro i hi
          obtain ⟨pk, hpk, rfl⟩ := List.mem_map.mp hi
          exact validate_ok_bounds pk ep (hval pk hpk)
        have hcov := (coverage_ok_iff ep.varying_parameters.n (pks.map (fun pk => pk.i))
          hb).mp ⟨s, hsl, hmiss⟩
        -- transfer everything through the permutation
        have hpermix : (pks.map (fun pk => pk.i)).Perm (pks'.map (fun pk => pk.i)) :=
          hperm.map _
        have hb' : ∀ i ∈ pks'.map (fun pk => pk.i), 1 ≤ i ∧ i ≤ ep.varying_parameters.n :=
          fun i hi => hb i (hpermix.mem_iff.mpr hi)
        have hcov' : ((pks'.map (fun pk => pk.i)).map (fun i => i - 1)).Nodup ∧
            ∀ m < ep.varying_parameters.n, m + 1 ∈ pks'.map (fun pk => pk.i) := by
          constructor
          · exact ((hpermix.map (fun i => i - 1)).nodup_iff).mp hcov.1
          · intro m hm
            exact hpermix.mem_iff.mp (hcov.2 m hm)
        obtain ⟨s', hsl', hmiss'⟩ :=
          (coverage_ok_iff ep.varying_parameters.n (pks'.map (fun pk => pk.i)) hb').mpr hcov'
        have hva' : validateAll ep pks' = Except.ok () :=
          (validateAll_ok_iff ep pks').mpr (fun pk hpk => hval pk (hperm.mem_iff.mpr hpk))
        -- both folds compute the product of the K_{j, 0} mod p
        have hne : pks ≠ [] := by
          intro hnil
          have := hcov.2 0 (by omega)
          rw [hnil] at this
          simp at this
        have hne' : pks' ≠ [] := by
          intro hnil
          have := hcov'.2 0 (by omega)
          rw [hnil] at this
          simp at this
        have hfold : ∀ (l : List GuardianPublicKey), l ≠ [] →
            l.foldl (fun acc pk => acc * pk.public_key_k_i_0 % ep.fixed_parameters.p) 1 =
              (l.map GuardianPublicKey.public_key_k_i_0).prod % ep.fixed_parameters.p := by
          intro l hl
          rw [foldl_mul_mod_map_of_ne_nil ep.fixed_parameters.p
            GuardianPublicKey.public_key_k_i_0 l hl 1, Nat.one_mul]
        have hprodeq : (pks'.map GuardianPublicKey.public_key_k_i_0).prod =
            (pks.map GuardianPublicKey.public_key_k_i_0).prod :=
          ((hperm.map GuardianPublicKey.public_key_k_i_0).prod_eq).symm
        constructor
        · unfold JointElectionPublicKey.compute
          rw [hva', hsl']
          simp only [ne_eq, ite_not]
          rw [if_pos hmiss']
          rw [hfold pks' hne', hprodeq, ← hfold pks hne, h]
        · rw [← h, hfold pks hne]
      · rw [if_neg hmiss] at h
        exact absurd h (by simp)

theorem c6_compute_permutation_invariant_witness :
    JointElectionPublicKey.compute ⟨⟨23, 11, 2⟩, ⟨2, 1⟩⟩ [⟨2, [4]⟩, ⟨1, [2]⟩] =
      Except.ok ⟨8⟩ ∧
      (⟨8⟩ : JointElectionPublicKey).joint_election_public_key =
        ([(⟨1, [2]⟩ : GuardianPublicKey), ⟨2, [4]⟩].map
          GuardianPublicKey.public_key_k_i_0).prod % 23 :=
  c6_compute_permutation_invariant ⟨⟨23, 11, 2⟩, ⟨2, 1⟩⟩ [⟨1, [2]⟩, ⟨2, [4]⟩]
    [⟨2, [4]⟩, ⟨1, [2]⟩] ⟨8⟩ (by norm_num) rfl
    (List.Perm.swap (⟨2, [4]⟩ : GuardianPublicKey) (⟨1, [2]⟩ : GuardianPublicKey) [])

/- Correctness of the extended-Euclid loop and mod_inverse -/

theorem egcdLoop_go (m a : Nat) (hm : 0 < m) :
    ∀ (n2 : Nat), ∀ (n1 : Nat) (t : Int × Int),
      (n2 ≠ 0 → 1 ≤ n1) →
      (t.1 ≤ 0 ∧ 0 ≤ t.2 ∨ 0 ≤ t.1 ∧ t.2 ≤ 0) →
      (t.2 * n1 - t.1 * n2 = m ∨ t.2 * n1 - t.1 * n2 = -m) →
      t.1 * a ≡ n1 [ZMOD m] → t.2 * a ≡ n2 [ZMOD m] →
      Nat.gcd n1 n2 = Nat.gcd m a →
      t.1.natAbs ≤ m →
      ∃ (g : Nat) (t1 t2 : Int),
        egcdLoop ((n1 : Int), (n2 : Int)) t = (((g : Int), (0 : Int)), (t1, t2)) ∧
        g = Nat.gcd m a ∧ t1 * a ≡ g [ZMOD m] ∧ t1.natAbs ≤ m := by
  intro n2
  induction n2 using Nat.strong_induction_on with
  | _ n2 ih =>
    intro n1 t hguard hsign hD h1 h2 hgcd ht1
    by_cases hn2 : n2 = 0
    · subst hn2
      refine ⟨n1, t.1, t.2, ?_, ?_, ?_, ht1⟩
      · rw [egcdLoop]
        simp
      · rw [← hgcd, Nat.gcd_zero_right]
      · simpa using h1
    · have hn2pos : 0 < n2 := Nat.pos_of_ne_zero hn2
      have hn1pos : 1 ≤ n1 := hguard hn2
      rw [egcdLoop]
      rw [dif_neg (by simp [hn2])]
      have hq : ((n1 : Int)) / (n2 : Int) = ((n1 / n2 : Nat) : Int) := by
        exact_mod_cast (Int.ofNat_ediv n1 n2).symm
      have hdm : (n2 : Int) * ((n1 / n2 : Nat) : Int) + ((n1 % n2 : Nat) : Int) = (n1 : Int) := by
        exact_mod_cast congrArg (fun x : Nat => (x : Int)) (Nat.div_add_mod n1 n2)
      have hmodeq : (n1 : Int) - (n1 : Int) / (n2 : Int) * (n2 : Int) = ((n1 % n2 : Nat) : Int) := by
        rw [hq]
        have hdm' := hdm
        rw [Int.mul_comm] at hdm'
        omega
      simp only [hmodeq]
      -- new t pair
      have hq0 : (0 : Int) ≤ (n1 : Int) / (n2 : Int) := by
        rw [hq]; exact Int.ofNat_nonneg _
      -- the cross identity bounds the new Bezout coefficient
      have ht2bound : t.2.natAbs ≤ m := by
        rcases hsign with ⟨hta, htb⟩ | ⟨hta, htb⟩
        · have hx1 : 0 ≤ t.2 * (n1 : Int) := mul_nonneg htb (by positivity)
          have hx2 : t.1 * (n2 : Int) ≤ 0 :=
            mul_nonpos_of_nonpos_of_nonneg hta (by positivity)
          have hDpos : t.2 * n1 - t.1 * n2 = (m : Int) := by
            rcases hD with h | h
            · exact h
            · exfalso
              have : (0 : Int) ≤ t.2 * n1 - t.1 * n2 := by omega
              rw [h] at this
              omega
          have hb1 : t.2 * (n1 : Int) ≤ m := by omega
          have hb2 : t.2 * 1 ≤ t.2 * (n1 : Int) :=
            mul_le_mul_of_nonneg_left (by exact_mod_cast hn1pos) htb
          have : t.2 ≤ (m : Int) := by omega
          omega
        · have hx1 : t.2 * (n1 : Int) ≤ 0 :=
            mul_nonpos_of_nonpos_of_nonneg htb (by positivity)
          have hx2 : 0 ≤ t.1 * (n2 : Int) := mul_nonneg hta (by positivity)
          have hDneg : t.2 * n1 - t.1 * n2 = -(m : Int) := by
            rcases hD with h | h
            · exfalso
              have : t.2 * n1 - t.1 * n2 ≤ 0 := by omega
              rw [h] at this
              omega
            · exact h
          have hb1 : -(m : Int) ≤ t.2 * (n1 : Int) := by omega
          have hb2 : t.2 * (n1 : Int) ≤ t.2 * 1 :=
            mul_le_mul_of_nonpos_left (by exact_mod_cast hn1pos) htb
          have : -(m : Int) ≤ t.2 := by omega
          omega
      refine ih (n1 % n2) (Nat.mod_lt n1 hn2pos) n2 (t.2, t.1 - (n1 : Int) / (n2 : Int) * t.2)
        (fun _ => hn2pos) ?_ ?_ ?_ ?_ ?_ ht2bound
      · rcases hsign with ⟨hta, htb⟩ | ⟨hta, htb⟩
        · right
          constructor
          · exact htb
          · show t.1 - (n1 : Int) / (n2 : Int) * t.2 ≤ 0
            have : 0 ≤ (n1 : Int) / (n2 : Int) * t.2 := mul_nonneg hq0 htb
            omega
        · left
          constructor
          · exact htb
          · show (0 : Int) ≤ t.1 - (n1 : Int) / (n2 : Int) * t.2
            have : (n1 : Int) / (n2 : Int) * t.2 ≤ 0 :=
              mul_nonpos_of_nonneg_of_nonpos hq0 htb
            omega
      · have hDnew : (t.1 - (n1 : Int) / (n2 : Int) * t.2) * (n2 : Int) -
            t.2 * ((n1 % n2 : Nat) : Int) = -(t.2 * n1 - t.1 * n2) := by
          rw [← hmodeq]
          ring
        rcases hD with h | h
        · right; rw [hDnew, h]
        · left; rw [hDnew, h]; ring
      · exact h2
      · have : (t.1 - (n1 : Int) / (n2 : Int) * t.2) * a =
            t.1 * a - (n1 : Int) / (n2 : Int) * (t.2 * a) := by ring
        rw [this, ← hmodeq]
        exact (h1.sub ((h2.mul_left _))).symm.symm
      · rw [← hgcd]
        rw [Nat.gcd_comm n2 (n1 % n2), ← Nat.gcd_rec n2 n1, Nat.gcd_comm n2 n1]

theorem mod_inverse_prime_inverse (q d : Nat) (hq : 1 < q) (hcop : Nat.gcd q d = 1) :
    ∃ b, mod_inverse d q = some b ∧ d * b % q = 1 := by
  obtain ⟨g, t1, t2, heq, hg, hcong, ht1⟩ :=
    egcdLoop_go q d (by omega) d q (0, 1)
      (fun _ => by omega)
      (by left; constructor <;> norm_num)
      (by left; push_cast; ring)
      (by show (0 : Int) * d ≡ (q : Int) [ZMOD q]
          have h1 : ((0 : Int) * d) % q = 0 := by simp
          have h2 : ((q : Int)) % q = 0 := Int.emod_self
          show ((0 : Int) * d) % q = ((q : Int)) % q
          rw [h1, h2])
      (by show (1 : Int) * d ≡ (d : Int) [ZMOD q]
          simp [Int.ModEq])
      rfl
      (by simp)
  rw [hcop] at hg
  subst hg
  have hcong1 : (t1 * d) % (q : Int) = 1 % (q : Int) := hcong
  have h1modq : (1 : Int) % (q : Int) = 1 := by
    rw [Int.emod_eq_of_lt (by omega) (by exact_mod_cast hq)]
  unfold mod_inverse
  rw [if_neg (by omega)]
  simp only [heq]
  norm_num
  by_cases ht : t1 < 0
  · rw [if_pos ht]
    refine ⟨(t1 + (q : Int)).natAbs, rfl, ?_⟩
    have hnn : 0 ≤ t1 + (q : Int) := by omega
    have hbt : ((t1 + (q : Int)).natAbs : Int) = t1 + q := Int.natAbs_of_nonneg hnn
    have : ((d * (t1 + (q : Int)).natAbs % q : Nat) : Int) = ((1 : Nat) : Int) := by
      push_cast
      rw [abs_of_nonneg hnn]
      have hexp : (d : Int) * (t1 + q) = t1 * d + (q : Int) * d := by ring
      rw [hexp, Int.add_mul_emod_self_left, hcong1, h1modq]
    exact_mod_cast this
  · rw [if_neg ht]
    refine ⟨t1.natAbs, rfl, ?_⟩
    have hbt : (t1.natAbs : Int) = t1 := Int.natAbs_of_nonneg (by omega)
    have : ((d * t1.natAbs % q : Nat) : Int) = ((1 : Nat) : Int) := by
      push_cast
      rw [abs_of_nonneg (by omega : (0 : Int) ≤ t1), Int.mul_comm, hcong1, h1modq]
    exact_mod_cast this

theorem mod_inverse_exists_of_prime (q d : Nat) (hq : Nat.Prime q) (hd0 : 0 < d)
    (hdq : d < q) : ∃ b, mod_inverse d q = some b ∧ d * b % q = 1 := by
  apply mod_inverse_prime_inverse q d hq.one_lt
  refine (Nat.Prime.coprime_iff_not_dvd hq).mpr ?_
  intro hdvd
  have := Nat.le_of_dvd hd0 hdvd
  omega

theorem subtract_group_elem_of_gt (q l i : Nat) (h : i < l) (hl : l < q) :
    subtract_group_elem q l i = l - i := by
  unfold subtract_group_elem
  rw [Nat.mod_eq_of_lt (by omega : l < q), Nat.mod_eq_of_lt (by omega : i < q)]
  rw [show l + (q - i) = q + (l - i) by omega, Nat.add_mod_left,
    Nat.mod_eq_of_lt (by omega)]

theorem subtract_group_elem_of_lt (q l i : Nat) (h : l < i) (hi : i < q) :
    subtract_group_elem q l i = q - (i - l) := by
  unfold subtract_group_elem
  rw [Nat.mod_eq_of_lt (by omega : l < q), Nat.mod_eq_of_lt (by omega : i < q)]
  rw [Nat.mod_eq_of_lt (by omega : l + (q - i) < q)]
  omega

theorem cast_inverse_relation (q d b : Nat) (h : d * b % q = 1) :
    (d : ZMod q) * (b : ZMod q) = 1 := by
  have hc := congrArg (fun x : Nat => (x : ZMod q)) h
  simpa [ZMod.natCast_mod] using hc

theorem cast_q_sub (q k : Nat) (hk : k ≤ q) : ((q - k : Nat) : ZMod q) = -(k : ZMod q) := by
  rw [Nat.cast_sub hk]
  simp [ZMod.natCast_self]

theorem fold_sum_cast (q B1 B2 B3 B4 B5 y1 y2 y3 y4 y5 : Nat) :
    (((((((0 + B1 * y1 % q) % q + B2 * y2 % q) % q + B3 * y3 % q) % q +
        B4 * y4 % q) % q + B5 * y5 % q) % q : Nat) : ZMod q) =
      (B1 : ZMod q) * y1 + (B2 : ZMod q) * y2 + (B3 : ZMod q) * y3 +
        (B4 : ZMod q) * y4 + (B5 : ZMod q) * y5 := by
  push_cast [ZMod.natCast_mod]
  ring

theorem horner_eval_three_cast (c0 c1 c2 x q : Nat) :
    ((horner_eval [c0, c1, c2] x q : Nat) : ZMod q) =
      (c0 : ZMod q) + (c1 : ZMod q) * x + (c2 : ZMod q) * x ^ 2 := by
  show (((((0 * x + c2) % q * x + c1) % q * x + c0) % q : Nat) : ZMod q) = _
  push_cast [ZMod.natCast_mod]
  ring

theorem lagrangeCoefficient_four (q i l1 l2 l3 l4 d1 d2 d3 d4 w1 w2 w3 w4 : Nat)
    (hfil : [1, 2, 3, 4, 5].filter (fun l => l ≠ i) = [l1, l2, l3, l4])
    (hd1 : subtract_group_elem q l1 i = d1) (hw1 : mod_inverse d1 q = some w1)
    (hd2 : subtract_group_elem q l2 i = d2) (hw2 : mod_inverse d2 q = some w2)
    (hd3 : subtract_group_elem q l3 i = d3) (hw3 : mod_inverse d3 q = some w3)
    (hd4 : subtract_group_elem q l4 i = d4) (hw4 : mod_inverse d4 q = some w4) :
    lagrangeCoefficient [1, 2, 3, 4, 5] i q =
      some (1 * (l1 * w1) % q * (l2 * w2) % q * (l3 * w3) % q * (l4 * w4) % q) := by
  unfold lagrangeCoefficient
  rw [hfil]
  simp only [List.mapM_cons, List.mapM_nil, hd1, hd2, hd3, hd4, hw1, hw2, hw3, hw4,
    Option.map_some', Option.bind_eq_bind, Option.some_bind, Option.pure_def,
    List.foldl_cons, List.foldl_nil]

theorem lagrange_zip_eval (q B1 B2 B3 B4 B5 y1 y2 y3 y4 y5 : Nat)
    (h1 : lagrangeCoefficient [1, 2, 3, 4, 5] 1 q = some B1)
    (h2 : lagrangeCoefficient [1, 2, 3, 4, 5] 2 q = some B2)
    (h3 : lagrangeCoefficient [1, 2, 3, 4, 5] 3 q = some B3)
    (h4 : lagrangeCoefficient [1, 2, 3, 4, 5] 4 q = some B4)
    (h5 : lagrangeCoefficient [1, 2, 3, 4, 5] 5 q = some B5) :
    lagrange_interpolation_at_zero [1, 2, 3, 4, 5] [y1, y2, y3, y4, y5] q =
      some ((((((0 + B1 * y1 % q) % q + B2 * y2 % q) % q + B3 * y3 % q) % q +
        B4 * y4 % q) % q + B5 * y5 % q) % q) := by
  unfold lagrange_interpolation_at_zero
  simp only [List.mapM_cons, List.mapM_nil, h1, h2, h3, h4, h5,
    Option.map_some', Option.bind_eq_bind, Option.some_bind, Option.pure_def,
    List.zip_cons_cons, List.zip_nil_right, List.zip_nil_left,
    List.map_cons, List.map_nil, List.foldl_cons, List.foldl_nil]

/-- Evaluation of the test Lagrange interpolation at the five points 1..5 over
a prime field: the code's extended-Euclid inverses exist and the result is
determined by the classical integer Lagrange coefficients 5, -10, 10, -5, 1. -/
theorem lagrange_five_eval (q : Nat) (hq : Nat.Prime q) (hq5 : 5 < q)
    (y1 y2 y3 y4 y5 R : Nat) (hR : R < q)
    (hsum : (5 : ZMod q) * y1 - 10 * y2 + 10 * y3 - 5 * y4 + y5 = (R : ZMod q)) :
    lagrange_interpolation_at_zero [1, 2, 3, 4, 5] [y1, y2, y3, y4, y5] q = some R := by
  obtain ⟨w1, hw1, hw1e⟩ := mod_inverse_exists_of_prime q 1 hq (by norm_num) (by omega)
  obtain ⟨w2, hw2, hw2e⟩ := mod_inverse_exists_of_prime q 2 hq (by norm_num) (by omega)
  obtain ⟨w3, hw3, hw3e⟩ := mod_inverse_exists_of_prime q 3 hq (by norm_num) (by omega)
  obtain ⟨w4, hw4, hw4e⟩ := mod_inverse_exists_of_prime q 4 hq (by norm_num) (by omega)
  obtain ⟨v1, hv1, hv1e⟩ := mod_inverse_exists_of_prime q (q - 1) hq (by omega) (by omega)
  obtain ⟨v2, hv2, hv2e⟩ := mod_inverse_exists_of_prime q (q - 2) hq (by omega) (by omega)
  obtain ⟨v3, hv3, hv3e⟩ := mod_inverse_exists_of_prime q (q - 3) hq (by omega) (by omega)
  obtain ⟨v4, hv4, hv4e⟩ := mod_inverse_exists_of_prime q (q - 4) hq (by omega) (by omega)
  have hs21 : subtract_group_elem q 2 1 = 1 := by
    rw [subtract_group_elem_of_gt q 2 1 (by omega) (by omega)]
  have hs31 : subtract_group_elem q 3 1 = 2 := by
    rw [subtract_group_elem_of_gt q 3 1 (by omega) (by omega)]
  have hs41 : subtract_group_elem q 4 1 = 3 := by
    rw [subtract_group_elem_of_gt q 4 1 (by omega) (by omega)]
  have hs51 : subtract_group_elem q 5 1 = 4 := by
    rw [subtract_group_elem_of_gt q 5 1 (by omega) (by omega)]
  have hs12 : subtract_group_elem q 1 2 = q - 1 := by
    rw [subtract_group_elem_of_lt q 1 2 (by omega) (by omega)]
  have hs32 : subtract_group_elem q 3 2 = 1 := by
    rw [subtract_group_elem_of_gt q 3 2 (by omega) (by omega)]
  have hs42 : subtract_group_elem q 4 2 = 2 := by
    rw [subtract_group_elem_of_gt q 4 2 (by omega) (by omega)]
  have hs52 : subtract_group_elem q 5 2 = 3 := by
    rw [subtract_group_elem_of_gt q 5 2 (by omega) (by omega)]
  have hs13 : subtract_group_elem q 1 3 = q - 2 := by
    rw [subtract_group_elem_of_lt q 1 3 (by omega) (by omega)]
  have hs23 : subtract_group_elem q 2 3 = q - 1 := by
    rw [subtract_group_elem_of_lt q 2 3 (by omega) (by omega)]
  have hs43 : subtract_group_elem q 4 3 = 1 := by
    rw [subtract_group_elem_of_gt q 4 3 (by omega) (by omega)]
  have hs53 : subtract_group_elem q 5 3 = 2 := by
    rw [subtract_group_elem_of_gt q 5 3 (by omega) (by omega)]
  have hs14 : subtract_group_elem q 1 4 = q - 3 := by
    rw [subtract_group_elem_of_lt q 1 4 (by omega) (by omega)]
  have hs24 : subtract_group_elem q 2 4 = q - 2 := by
    rw [subtract_group_elem_of_lt q 2 4 (by omega) (by omega)]
  have hs34 : subtract_group_elem q 3 4 = q - 1 := by
    rw [subtract_group_elem_of_lt q 3 4 (by omega) (by omega)]
  have hs54 : subtract_group_elem q 5 4 = 1 := by
    rw [subtract_group_elem_of_gt q 5 4 (by omega) (by omega)]
  have hs15 : subtract_group_elem q 1 5 = q - 4 := by
    rw [subtract_group_elem_of_lt q 1 5 (by omega) (by omega)]
  have hs25 : subtract_group_elem q 2 5 = q - 3 := by
    rw [subtract_group_elem_of_lt q 2 5 (by omega) (by omega)]
  have hs35 : subtract_group_elem q 3 5 = q - 2 := by
    rw [subtract_group_elem_of_lt q 3 5 (by omega) (by omega)]
  have hs45 : subtract_group_elem q 4 5 = q - 1 := by
    rw [subtract_group_elem_of_lt q 4 5 (by omega) (by omega)]
  have hc1 := lagrangeCoefficient_four q 1 2 3 4 5 1 2 3 4 w1 w2 w3 w4
    (by decide) hs21 hw1 hs31 hw2 hs41 hw3 hs51 hw4
  have hc2 := lagrangeCoefficient_four q 2 1 3 4 5 (q - 1) 1 2 3 v1 w1 w2 w3
    (by decide) hs12 hv1 hs32 hw1 hs42 hw2 hs52 hw3
  have hc3 := lagrangeCoefficient_four q 3 1 2 4 5 (q - 2) (q - 1) 1 2 v2 v1 w1 w2
    (by decide) hs13 hv2 hs23 hv1 hs43 hw1 hs53 hw2
  have hc4 := lagrangeCoefficient_four q 4 1 2 3 5 (q - 3) (q - 2) (q - 1) 1 v3 v2 v1 w1
    (by decide) hs14 hv3 hs24 hv2 hs34 hv1 hs54 hw1
  have hc5 := lagrangeCoefficient_four q 5 1 2 3 4 (q - 4) (q - 3) (q - 2) (q - 1) v4 v3 v2 v1
    (by decide) hs15 hv4 hs25 hv3 hs35 hv2 hs45 hv1
  rw [lagrange_zip_eval q _ _ _ _ _ y1 y2 y3 y4 y5 hc1 hc2 hc3 hc4 hc5]
  -- unit relations in ZMod q
  have r1 : (1 : ZMod q) * w1 = 1 := by simpa using cast_inverse_relation q 1 w1 hw1e
  have r2 : (2 : ZMod q) * w2 = 1 := by simpa using cast_inverse_relation q 2 w2 hw2e
  have r3 : (3 : ZMod q) * w3 = 1 := by simpa using cast_inverse_relation q 3 w3 hw3e
  have r4 : (4 : ZMod q) * w4 = 1 := by simpa using cast_inverse_relation q 4 w4 hw4e
  have s1 : (-1 : ZMod q) * v1 = 1 := by
    have h := cast_inverse_relation q (q - 1) v1 hv1e
    rw [cast_q_sub q 1 (by omega)] at h
    simpa using h
  have s2 : (-2 : ZMod q) * v2 = 1 := by
    have h := cast_inverse_relation q (q - 2) v2 hv2e
    rw [cast_q_sub q 2 (by omega)] at h
    simpa using h
  have s3 : (-3 : ZMod q) * v3 = 1 := by
    have h := cast_inverse_relation q (q - 3) v3 hv3e
    rw [cast_q_sub q 3 (by omega)] at h
    simpa using h
  have s4 : (-4 : ZMod q) * v4 = 1 := by
    have h := cast_inverse_relation q (q - 4) v4 hv4e
    rw [cast_q_sub q 4 (by omega)] at h
    simpa using h
  -- the five coefficients take the classical values 5, -10, 10, -5, 1
  have hB1 : ((1 * (2 * w1) % q * (3 * w2) % q * (4 * w3) % q * (5 * w4) % q : Nat) :
      ZMod q) = 5 := by
    push_cast [ZMod.natCast_mod]
    linear_combination (5 * ((2 : ZMod q) * w2) * ((3 : ZMod q) * w3) *
        ((4 : ZMod q) * w4)) * r1 +
      (5 * ((3 : ZMod q) * w3) * ((4 : ZMod q) * w4)) * r2 +
      (5 * ((4 : ZMod q) * w4)) * r3 + 5 * r4
  have hB2 : ((1 * (1 * v1) % q * (3 * w1) % q * (4 * w2) % q * (5 * w3) % q : Nat) :
      ZMod q) = -10 := by
    push_cast [ZMod.natCast_mod]
    linear_combination ((-10 : ZMod q) * ((1 : ZMod q) * w1) * ((2 : ZMod q) * w2) *
        ((3 : ZMod q) * w3)) * s1 +
      ((-10 : ZMod q) * ((2 : ZMod q) * w2) * ((3 : ZMod q) * w3)) * r1 +
      ((-10 : ZMod q) * ((3 : ZMod q) * w3)) * r2 + (-10 : ZMod q) * r3
  have hB3 : ((1 * (1 * v2) % q * (2 * v1) % q * (4 * w1) % q * (5 * w2) % q : Nat) :
      ZMod q) = 10 := by
    push_cast [ZMod.natCast_mod]
    linear_combination ((10 : ZMod q) * ((-1 : ZMod q) * v1) * ((1 : ZMod q) * w1) *
        ((2 : ZMod q) * w2)) * s2 +
      ((10 : ZMod q) * ((1 : ZMod q) * w1) * ((2 : ZMod q) * w2)) * s1 +
      ((10 : ZMod q) * ((2 : ZMod q) * w2)) * r1 + (10 : ZMod q) * r2
  have hB4 : ((1 * (1 * v3) % q * (2 * v2) % q * (3 * v1) % q * (5 * w1) % q : Nat) :
      ZMod q) = -5 := by
    push_cast [ZMod.natCast_mod]
    linear_combination ((-5 : ZMod q) * ((-2 : ZMod q) * v2) * ((-1 : ZMod q) * v1) *
        ((1 : ZMod q) * w1)) * s3 +
      ((-5 : ZMod q) * ((-1 : ZMod q) * v1) * ((1 : ZMod q) * w1)) * s2 +
      ((-5 : ZMod q) * ((1 : ZMod q) * w1)) * s1 + (-5 : ZMod q) * r1
  have hB5 : ((1 * (1 * v4) % q * (2 * v3) % q * (3 * v2) % q * (4 * v1) % q : Nat) :
      ZMod q) = 1 := by
    push_cast [ZMod.natCast_mod]
    linear_combination (((-3 : ZMod q) * v3) * ((-2 : ZMod q) * v2) *
        ((-1 : ZMod q) * v1)) * s4 +
      (((-2 : ZMod q) * v2) * ((-1 : ZMod q) * v1)) * s3 +
      (((-1 : ZMod q) * v1)) * s2 + s1
  congr 1
  -- the Nat-level value equals R: compare casts into ZMod q and use that both
  -- sides are reduced mod q
  have hcast : ((((((0 + (1 * (2 * w1) % q * (3 * w2) % q * (4 * w3) % q * (5 * w4) % q) *
      y1 % q) % q + (1 * (1 * v1) % q * (3 * w1) % q * (4 * w2) % q * (5 * w3) % q) *
      y2 % q) % q + (1 * (1 * v2) % q * (2 * v1) % q * (4 * w1) % q * (5 * w2) % q) *
      y3 % q) % q + (1 * (1 * v3) % q * (2 * v2) % q * (3 * v1) % q * (5 * w1) % q) *
      y4 % q) % q + (1 * (1 * v4) % q * (2 * v3) % q * (3 * v2) % q * (4 * v1) % q) *
      y5 % q) % q : ZMod q) = (R : ZMod q) := by
    rw [fold_sum_cast q _ _ _ _ _ y1 y2 y3 y4 y5, hB1, hB2, hB3, hB4, hB5]
    linear_combination hsum
  have hmodeq : _ % q = R % q := (ZMod.natCast_eq_natCast_iff _ _ _).mp hcast
  rw [Nat.mod_mod_of_dvd _ (dvd_refl q), Nat.mod_eq_of_lt hR] at hmodeq
  exact hmodeq

/-- The threshold identity: with shares equal to the summed Horner evaluations
of the five degree-2 polynomials at 1..5, the test Lagrange interpolation at
zero returns the sum of the constant coefficients mod q. -/
theorem c2_lagrange_part (q : Nat) (hq : Nat.Prime q) (hq5 : 5 < q)
    (c : Fin 5 → Fin 3 → Nat) (y : Fin 5 → Nat)
    (hy : ∀ l : Fin 5, y l =
      (horner_eval [c 0 0, c 0 1, c 0 2] ((l : Nat) + 1) q +
        horner_eval [c 1 0, c 1 1, c 1 2] ((l : Nat) + 1) q +
        horner_eval [c 2 0, c 2 1, c 2 2] ((l : Nat) + 1) q +
        horner_eval [c 3 0, c 3 1, c 3 2] ((l : Nat) + 1) q +
        horner_eval [c 4 0, c 4 1, c 4 2] ((l : Nat) + 1) q) % q) :
    lagrange_interpolation_at_zero [1, 2, 3, 4, 5] [y 0, y 1, y 2, y 3, y 4] q =
      some ((c 0 0 + c 1 0 + c 2 0 + c 3 0 + c 4 0) % q) := by
  apply lagrange_five_eval q hq hq5 (y 0) (y 1) (y 2) (y 3) (y 4) _
    (Nat.mod_lt _ (by omega))
  have h0 := hy 0
  have h1 := hy 1
  have h2 := hy 2
  have h3 := hy 3
  have h4 := hy 4
  rw [show ((0 : Fin 5) : Nat) + 1 = 1 from rfl] at h0
  rw [show ((1 : Fin 5) : Nat) + 1 = 2 from rfl] at h1
  rw [show ((2 : Fin 5) : Nat) + 1 = 3 from rfl] at h2
  rw [show ((3 : Fin 5) : Nat) + 1 = 4 from rfl] at h3
  rw [show ((4 : Fin 5) : Nat) + 1 = 5 from rfl] at h4
  rw [h0, h1, h2, h3, h4]
  push_cast [ZMod.natCast_mod]
  rw [horner_eval_three_cast, horner_eval_three_cast, horner_eval_three_cast,
    horner_eval_three_cast, horner_eval_three_cast, horner_eval_three_cast,
    horner_eval_three_cast, horner_eval_three_cast, horner_eval_three_cast,
    horner_eval_three_cast, horner_eval_three_cast, horner_eval_three_cast,
    horner_eval_three_cast, horner_eval_three_cast, horner_eval_three_cast,
    horner_eval_three_cast, horner_eval_three_cast, horner_eval_three_cast,
    horner_eval_three_cast, horner_eval_three_cast, horner_eval_three_cast,
    horner_eval_three_cast, horner_eval_three_cast, horner_eval_three_cast,
    horner_eval_three_cast]
  push_cast
  ring

/-- The n = 5, k = 3 key-sharing pipeline: with five generated guardian keys
(indices 1..5, commitments g^a mod p), each recipient's
GuardianSecretKeyShare::compute over the five encrypted shares dealt to it
succeeds and returns the sum of the five Horner evaluations at its index,
reduced mod q. -/
theorem c2_pipeline_compute (H : HValue → List Nat → HValue)
    (hH : ∀ k d, (H k d).length = 32 ∧ ∀ b ∈ H k d, b < 256)
    (fp : FixedParameters) (h_p : HValue)
    (hq : Nat.Prime fp.q) (hq32 : fp.q ≤ 256 ^ 32)
    (hp1 : 1 < fp.p) (hg : fp.g ^ fp.q % fp.p = 1)
    (c : Fin 5 → Fin 3 → Nat) (cs : Fin 5 → Fin 5 → Csprng)
    (sk : Fin 5 → GuardianSecretKey)
    (hsk : ∀ j : Fin 5, sk j = ⟨(j : Nat) + 1, [c j 0, c j 1, c j 2],
      [fp.g ^ c j 0 % fp.p, fp.g ^ c j 1 % fp.p, fp.g ^ c j 2 % fp.p]⟩)
    (y : Fin 5 → Nat)
    (hy : ∀ l : Fin 5, y l =
      (horner_eval [c 0 0, c 0 1, c 0 2] ((l : Nat) + 1) fp.q +
        horner_eval [c 1 0, c 1 1, c 1 2] ((l : Nat) + 1) fp.q +
        horner_eval [c 2 0, c 2 1, c 2 2] ((l : Nat) + 1) fp.q +
        horner_eval [c 3 0, c 3 1, c 3 2] ((l : Nat) + 1) fp.q +
        horner_eval [c 4 0, c 4 1, c 4 2] ((l : Nat) + 1) fp.q) % fp.q)
    (l : Fin 5) :
    GuardianSecretKeyShare.compute H ⟨fp, ⟨5, 3⟩⟩ h_p
      [(sk 0).make_public_key, (sk 1).make_public_key, (sk 2).make_public_key,
        (sk 3).make_public_key, (sk 4).make_public_key]
      [(GuardianEncryptedShare.new H (cs 0 l) ⟨fp, ⟨5, 3⟩⟩ h_p (sk 0)
          ((sk l).make_public_key)).1,
        (GuardianEncryptedShare.new H (cs 1 l) ⟨fp, ⟨5, 3⟩⟩ h_p (sk 1)
          ((sk l).make_public_key)).1,
        (GuardianEncryptedShare.new H (cs 2 l) ⟨fp, ⟨5, 3⟩⟩ h_p (sk 2)
          ((sk l).make_public_key)).1,
        (GuardianEncryptedShare.new H (cs 3 l) ⟨fp, ⟨5, 3⟩⟩ h_p (sk 3)
          ((sk l).make_public_key)).1,
        (GuardianEncryptedShare.new H (cs 4 l) ⟨fp, ⟨5, 3⟩⟩ h_p (sk 4)
          ((sk l).make_public_key)).1]
      (sk l) = Except.ok ⟨(l : Nat) + 1, y l⟩ := by
  have hq0 : 0 < fp.q := hq.pos
  have hwf : ∀ j : Fin 5, (sk j).coefficient_commitments.headD 0 =
      fp.g ^ (sk j).secret_s % fp.p := by
    intro j
    rw [hsk j]
    rfl
  have hdec : ∀ j : Fin 5,
      (GuardianEncryptedShare.new H (cs j l) ⟨fp, ⟨5, 3⟩⟩ h_p (sk j)
          ((sk l).make_public_key)).1.decrypt_and_validate H ⟨fp, ⟨5, 3⟩⟩ h_p
        ((sk j).make_public_key) (sk l) =
      Except.ok (horner_eval (sk j).secret_coefficients (sk l).i fp.q) :=
    fun j => decrypt_new_roundtrip H hH ⟨fp, ⟨5, 3⟩⟩ h_p (cs j l) (sk j) (sk l)
      hq0 hq32 (hwf l)
  have hkey : ∀ a : Nat, (fp.g ^ a % fp.p) ^ fp.q % fp.p = 1 := by
    intro a
    rw [← Nat.pow_mod, ← Nat.pow_mul, Nat.mul_comm, Nat.pow_mul, Nat.pow_mod, hg,
      Nat.one_pow, Nat.mod_eq_of_lt hp1]
  have hval : ∀ j : Fin 5, ((sk j).make_public_key).validate ⟨fp, ⟨5, 3⟩⟩ =
      Except.ok () := by
    intro j
    rw [hsk j]
    unfold GuardianSecretKey.make_public_key GuardianPublicKey.validate
    split
    · rfl
    · rename_i hcon
      exfalso
      apply hcon
      refine ⟨?_, ?_, ?_⟩
      · show 1 ≤ (j : Nat) + 1
        omega
      · show (j : Nat) + 1 ≤ 5
        have := j.isLt
        omega
      · intro cc hcc
        show cc < fp.p ∧ cc ^ fp.q % fp.p = 1
        rcases List.mem_cons.mp hcc with rfl | hcc
        · exact ⟨Nat.mod_lt _ (by omega), hkey _⟩
        rcases List.mem_cons.mp hcc with rfl | hcc
        · exact ⟨Nat.mod_lt _ (by omega), hkey _⟩
        rcases List.mem_cons.mp hcc with rfl | hcc
        · exact ⟨Nat.mod_lt _ (by omega), hkey _⟩
        · simp at hcc
  have hva : validateAll ⟨fp, ⟨5, 3⟩⟩
      [(sk 0).make_public_key, (sk 1).make_public_key, (sk 2).make_public_key,
        (sk 3).make_public_key, (sk 4).make_public_key] = Except.ok () := by
    rw [validateAll_ok_iff]
    intro pk hpk
    rcases List.mem_cons.mp hpk with rfl | hpk
    · exact hval 0
    rcases List.mem_cons.mp hpk with rfl | hpk
    · exact hval 1
    rcases List.mem_cons.mp hpk with rfl | hpk
    · exact hval 2
    rcases List.mem_cons.mp hpk with rfl | hpk
    · exact hval 3
    rcases List.mem_cons.mp hpk with rfl | hpk
    · exact hval 4
    · simp at hpk
  have hmap : [(sk 0).make_public_key, (sk 1).make_public_key, (sk 2).make_public_key,
      (sk 3).make_public_key, (sk 4).make_public_key].map (fun pk => pk.i) =
      [1, 2, 3, 4, 5] := by
    simp only [List.map_cons, List.map_nil]
    rw [hsk 0, hsk 1, hsk 2, hsk 3, hsk 4]
    rfl
  have hda : decryptAll H ⟨fp, ⟨5, 3⟩⟩ h_p (sk l)
      [((sk 0).make_public_key,
        (GuardianEncryptedShare.new H (cs 0 l) ⟨fp, ⟨5, 3⟩⟩ h_p (sk 0)
          ((sk l).make_public_key)).1),
       ((sk 1).make_public_key,
        (GuardianEncryptedShare.new H (cs 1 l) ⟨fp, ⟨5, 3⟩⟩ h_p (sk 1)
          ((sk l).make_public_key)).1),
       ((sk 2).make_public_key,
        (GuardianEncryptedShare.new H (cs 2 l) ⟨fp, ⟨5, 3⟩⟩ h_p (sk 2)
          ((sk l).make_public_key)).1),
       ((sk 3).make_public_key,
        (GuardianEncryptedShare.new H (cs 3 l) ⟨fp, ⟨5, 3⟩⟩ h_p (sk 3)
          ((sk l).make_public_key)).1),
       ((sk 4).make_public_key,
        (GuardianEncryptedShare.new H (cs 4 l) ⟨fp, ⟨5, 3⟩⟩ h_p (sk 4)
          ((sk l).make_public_key)).1)] =
      Except.ok [horner_eval (sk 0).secret_coefficients (sk l).i fp.q,
        horner_eval (sk 1).secret_coefficients (sk l).i fp.q,
        horner_eval (sk 2).secret_coefficients (sk l).i fp.q,
        horner_eval (sk 3).secret_coefficients (sk l).i fp.q,
        horner_eval (sk 4).secret_coefficients (sk l).i fp.q] := by
    simp only [decryptAll, hdec 0, hdec 1, hdec 2, hdec 3, hdec 4]
  unfold GuardianSecretKeyShare.compute
  rw [hva, hmap]
  rw [show seenLoop [1, 2, 3, 4, 5]
      (List.replicate (ElectionParameters.mk fp ⟨5, 3⟩).varying_parameters.n false) =
      Except.ok [true, true, true, true, true] from rfl]
  simp only [show missing_guardian_ixs [true, true, true, true, true] = [] from rfl,
    ne_eq, not_true_eq_false, if_false]
  rw [show [(sk 0).make_public_key, (sk 1).make_public_key, (sk 2).make_public_key,
      (sk 3).make_public_key, (sk 4).make_public_key].zip
      [(GuardianEncryptedShare.new H (cs 0 l) ⟨fp, ⟨5, 3⟩⟩ h_p (sk 0)
          ((sk l).make_public_key)).1,
        (GuardianEncryptedShare.new H (cs 1 l) ⟨fp, ⟨5, 3⟩⟩ h_p (sk 1)
          ((sk l).make_public_key)).1,
        (GuardianEncryptedShare.new H (cs 2 l) ⟨fp, ⟨5, 3⟩⟩ h_p (sk 2)
          ((sk l).make_public_key)).1,
        (GuardianEncryptedShare.new H (cs 3 l) ⟨fp, ⟨5, 3⟩⟩ h_p (sk 3)
          ((sk l).make_public_key)).1,
        (GuardianEncryptedShare.new H (cs 4 l) ⟨fp, ⟨5, 3⟩⟩ h_p (sk 4)
          ((sk l).make_public_key)).1] =
      [((sk 0).make_public_key,
        (GuardianEncryptedShare.new H (cs 0 l) ⟨fp, ⟨5, 3⟩⟩ h_p (sk 0)
          ((sk l).make_public_key)).1),
       ((sk 1).make_public_key,
        (GuardianEncryptedShare.new H (cs 1 l) ⟨fp, ⟨5, 3⟩⟩ h_p (sk 1)
          ((sk l).make_public_key)).1),
       ((sk 2).make_public_key,
        (GuardianEncryptedShare.new H (cs 2 l) ⟨fp, ⟨5, 3⟩⟩ h_p (sk 2)
          ((sk l).make_public_key)).1),
       ((sk 3).make_public_key,
        (GuardianEncryptedShare.new H (cs 3 l) ⟨fp, ⟨5, 3⟩⟩ h_p (sk 3)
          ((sk l).make_public_key)).1),
       ((sk 4).make_public_key,
        (GuardianEncryptedShare.new H (cs 4 l) ⟨fp, ⟨5, 3⟩⟩ h_p (sk 4)
          ((sk l).make_public_key)).1)] from rfl]
  rw [hda]
  have hil : (sk l).i = (l : Nat) + 1 := by rw [hsk l]
  have hfold : [horner_eval (sk 0).secret_coefficients (sk l).i fp.q,
      horner_eval (sk 1).secret_coefficients (sk l).i fp.q,
      horner_eval (sk 2).secret_coefficients (sk l).i fp.q,
      horner_eval (sk 3).secret_coefficients (sk l).i fp.q,
      horner_eval (sk 4).secret_coefficients (sk l).i fp.q].foldl
      (fun acc share => (acc + share) %
        (ElectionParameters.mk fp ⟨5, 3⟩).fixed_parameters.q) 0 = y l := by
    show _ = y l
    rw [show (0 : Nat) = 0 % (ElectionParameters.mk fp ⟨5, 3⟩).fixed_parameters.q from
      (Nat.zero_mod _).symm, foldl_add_mod]
    rw [hy l]
    simp only [hsk, hil, List.sum_cons, List.sum_nil]
    congr 1
    ring
  show Except.ok (GuardianSecretKeyShare.mk (sk l).i (List.foldl
      (fun acc share => (acc + share) %
        (ElectionParameters.mk fp ⟨5, 3⟩).fixed_parameters.q) 0
      [horner_eval (sk 0).secret_coefficients (sk l).i fp.q,
        horner_eval (sk 1).secret_coefficients (sk l).i fp.q,
        horner_eval (sk 2).secret_coefficients (sk l).i fp.q,
        horner_eval (sk 3).secret_coefficients (sk l).i fp.q,
        horner_eval (sk 4).secret_coefficients (sk l).i fp.q])) =
    Except.ok (GuardianSecretKeyShare.mk ((l : Nat) + 1) (y l))
  rw [hfold, hil]

/-- C2: the threshold-reconstruction law. For n = 5, k = 3, generated guardian
keys (index j+1, coefficients c j, commitments g^a mod p) and arbitrary CSPRNG
states, the GuardianSecretKeyShare::compute output for each recipient is the
summed polynomial evaluation y l, and the test Lagrange interpolation at x = 0
over the five points (l+1, y l) returns the sum of the guardians' constant
coefficients mod q. -/
theorem c2_threshold_reconstruction (H : HValue → List Nat → HValue)
    (hH : ∀ k d, (H k d).length = 32 ∧ ∀ b ∈ H k d, b < 256)
    (fp : FixedParameters) (h_p : HValue)
    (hq : Nat.Prime fp.q) (hq5 : 5 < fp.q) (hq32 : fp.q ≤ 256 ^ 32)
    (hp1 : 1 < fp.p) (hg : fp.g ^ fp.q % fp.p = 1)
    (c : Fin 5 → Fin 3 → Nat) (cs : Fin 5 → Fin 5 → Csprng)
    (sk : Fin 5 → GuardianSecretKey)
    (hsk : ∀ j : Fin 5, sk j = ⟨(j : Nat) + 1, [c j 0, c j 1, c j 2],
      [fp.g ^ c j 0 % fp.p, fp.g ^ c j 1 % fp.p, fp.g ^ c j 2 % fp.p]⟩)
    (y : Fin 5 → Nat)
    (hy : ∀ l : Fin 5, y l =
      (horner_eval [c 0 0, c 0 1, c 0 2] ((l : Nat) + 1) fp.q +
        horner_eval [c 1 0, c 1 1, c 1 2] ((l : Nat) + 1) fp.q +
        horner_eval [c 2 0, c 2 1, c 2 2] ((l : Nat) + 1) fp.q +
        horner_eval [c 3 0, c 3 1, c 3 2] ((l : Nat) + 1) fp.q +
        horner_eval [c 4 0, c 4 1, c 4 2] ((l : Nat) + 1) fp.q) % fp.q)
    (l : Fin 5) :
    GuardianSecretKeyShare.compute H ⟨fp, ⟨5, 3⟩⟩ h_p
      [(sk 0).make_public_key, (sk 1).make_public_key, (sk 2).make_public_key,
        (sk 3).make_public_key, (sk 4).make_public_key]
      [(GuardianEncryptedShare.new H (cs 0 l) ⟨fp, ⟨5, 3⟩⟩ h_p (sk 0)
          ((sk l).make_public_key)).1,
        (GuardianEncryptedShare.new H (cs 1 l) ⟨fp, ⟨5, 3⟩⟩ h_p (sk 1)
          ((sk l).make_public_key)).1,
        (GuardianEncryptedShare.new H (cs 2 l) ⟨fp, ⟨5, 3⟩⟩ h_p (sk 2)
          ((sk l).make_public_key)).1,
        (GuardianEncryptedShare.new H (cs 3 l) ⟨fp, ⟨5, 3⟩⟩ h_p (sk 3)
          ((sk l).make_public_key)).1,
        (GuardianEncryptedShare.new H (cs 4 l) ⟨fp, ⟨5, 3⟩⟩ h_p (sk 4)
          ((sk l).make_public_key)).1]
      (sk l) = Except.ok ⟨(l : Nat) + 1, y l⟩ ∧
    lagrange_interpolation_at_zero [1, 2, 3, 4, 5] [y 0, y 1, y 2, y 3, y 4] fp.q =
      some ((c 0 0 + c 1 0 + c 2 0 + c 3 0 + c 4 0) % fp.q) :=
  ⟨c2_pipeline_compute H hH fp h_p hq hq32 hp1 hg c cs sk hsk y hy l,
    c2_lagrange_part fp.q hq hq5 c y hy⟩

theorem c2_threshold_reconstruction_witness :
    GuardianSecretKeyShare.compute (fun _ _ => List.replicate 32 0)
      ⟨⟨29, 7, 16⟩, ⟨5, 3⟩⟩ (List.replicate 32 7)
      [GuardianSecretKey.make_public_key
          ⟨1, [0, 1, 2], [16 ^ 0 % 29, 16 ^ 1 % 29, 16 ^ 2 % 29]⟩,
        GuardianSecretKey.make_public_key
          ⟨2, [1, 2, 3], [16 ^ 1 % 29, 16 ^ 2 % 29, 16 ^ 3 % 29]⟩,
        GuardianSecretKey.make_public_key
          ⟨3, [2, 3, 4], [16 ^ 2 % 29, 16 ^ 3 % 29, 16 ^ 4 % 29]⟩,
        GuardianSecretKey.make_public_key
          ⟨4, [3, 4, 5], [16 ^ 3 % 29, 16 ^ 4 % 29, 16 ^ 5 % 29]⟩,
        GuardianSecretKey.make_public_key
          ⟨5, [4, 5, 6], [16 ^ 4 % 29, 16 ^ 5 % 29, 16 ^ 6 % 29]⟩]
      [(GuardianEncryptedShare.new (fun _ _ => List.replicate 32 0) ⟨[]⟩
          ⟨⟨29, 7, 16⟩, ⟨5, 3⟩⟩ (List.replicate 32 7)
          ⟨1, [0, 1, 2], [16 ^ 0 % 29, 16 ^ 1 % 29, 16 ^ 2 % 29]⟩
          (GuardianSecretKey.make_public_key
            ⟨1, [0, 1, 2], [16 ^ 0 % 29, 16 ^ 1 % 29, 16 ^ 2 % 29]⟩)).1,
        (GuardianEncryptedShare.new (fun _ _ => List.replicate 32 0) ⟨[]⟩
          ⟨⟨29, 7, 16⟩, ⟨5, 3⟩⟩ (List.replicate 32 7)
          ⟨2, [1, 2, 3], [16 ^ 1 % 29, 16 ^ 2 % 29, 16 ^ 3 % 29]⟩
          (GuardianSecretKey.make_public_key
            ⟨1, [0, 1, 2], [16 ^ 0 % 29, 16 ^ 1 % 29, 16 ^ 2 % 29]⟩)).1,
        (GuardianEncryptedShare.new (fun _ _ => List.replicate 32 0) ⟨[]⟩
          ⟨⟨29, 7, 16⟩, ⟨5, 3⟩⟩ (List.replicate 32 7)
          ⟨3, [2, 3, 4], [16 ^ 2 % 29, 16 ^ 3 % 29, 16 ^ 4 % 29]⟩
          (GuardianSecretKey.make_public_key
            ⟨1, [0, 1, 2], [16 ^ 0 % 29, 16 ^ 1 % 29, 16 ^ 2 % 29]⟩)).1,
        (GuardianEncryptedShare.new (fun _ _ => List.replicate 32 0) ⟨[]⟩
          ⟨⟨29, 7, 16⟩, ⟨5, 3⟩⟩ (List.replicate 32 7)
          ⟨4, [3, 4, 5], [16 ^ 3 % 29, 16 ^ 4 % 29, 16 ^ 5 % 29]⟩
          (GuardianSecretKey.make_public_key
            ⟨1, [0, 1, 2], [16 ^ 0 % 29, 16 ^ 1 % 29, 16 ^ 2 % 29]⟩)).1,
        (GuardianEncryptedShare.new (fun _ _ => List.replicate 32 0) ⟨[]⟩
          ⟨⟨29, 7, 16⟩, ⟨5, 3⟩⟩ (List.replicate 32 7)
          ⟨5, [4, 5, 6], [16 ^ 4 % 29, 16 ^ 5 % 29, 16 ^ 6 % 29]⟩
          (GuardianSecretKey.make_public_key
            ⟨1, [0, 1, 2], [16 ^ 0 % 29, 16 ^ 1 % 29, 16 ^ 2 % 29]⟩)).1]
      ⟨1, [0, 1, 2], [16 ^ 0 % 29, 16 ^ 1 % 29, 16 ^ 2 % 29]⟩ =
      Except.ok ⟨1, 3⟩ ∧
    lagrange_interpolation_at_zero [1, 2, 3, 4, 5] [3, 1, 4, 5, 4] 7 = some 3 :=
  c2_threshold_reconstruction (fun _ _ => List.replicate 32 0)
    (fun _ _ => ⟨by simp, by intro b hb; simp at hb; omega⟩)
    ⟨29, 7, 16⟩ (List.replicate 32 7)
    (by norm_num) (by norm_num) (by norm_num) (by norm_num) (by decide)
    (fun j m => (j : Nat) + (m : Nat)) (fun _ _ => ⟨[]⟩)
    (fun j => ⟨(j : Nat) + 1,
      [(j : Nat) + 0, (j : Nat) + 1, (j : Nat) + 2],
      [16 ^ ((j : Nat) + 0) % 29, 16 ^ ((j : Nat) + 1) % 29,
        16 ^ ((j : Nat) + 2) % 29]⟩)
    (fun _ => rfl)
    (fun l =>
      (horner_eval [0, 1, 2] ((l : Nat) + 1) 7 +
        horner_eval [1, 2, 3] ((l : Nat) + 1) 7 +
        horner_eval [2, 3, 4] ((l : Nat) + 1) 7 +
        horner_eval [3, 4, 5] ((l : Nat) + 1) 7 +
        horner_eval [4, 5, 6] ((l : Nat) + 1) 7) % 7)
    (fun _ => rfl) 0
